import Mathlib

/-!
Verification of the position-accounting engine of the stock-ledger PWA
(`src/app.js`).

Modelling conventions:
* JavaScript numbers are modelled as exact rationals; the spec states its
  numeric properties up to float epsilons, which exact arithmetic satisfies.
* JS strings are Lean strings; `localeCompare` on the app's fixed-format
  timestamp / market-code / symbol strings is modelled as codepoint-
  lexicographic order.
* `Array.prototype.sort` (stable per ECMAScript 2019+) is modelled by a
  stable insertion sort; all stable sorts by the same comparator agree
  extensionally.
* `localStorage` plus `JSON.stringify`/`JSON.parse` round-trips are modelled
  by storing the ledger value itself (`stringify` is injective on the
  document and `parse` inverts it).
* `uuid()` is modelled by an explicit supply `ids : Nat -> String` consumed
  in order; nothing the claims mention depends on the generated values.
-/

namespace StockLedger

attribute [local semireducible] Rat.add Rat.mul Rat.inv Rat.sub Rat.ofScientific

/-! ## JS string primitives -/

/-- Whitespace characters relevant to `String.prototype.trim` for this app. -/
def isWsChar (c : Char) : Bool := c = ' ' || c = '\t' || c = '\n' || c = '\r'

/-- Model of `String.prototype.trim`. -/
def jsTrim (s : String) : String :=
  ⟨((s.data.dropWhile isWsChar).reverse.dropWhile isWsChar).reverse⟩

/-- ASCII uppercasing, modelling `String.prototype.toUpperCase` on the app's inputs. -/
def jsToUpper (s : String) : String := ⟨s.data.map Char.toUpper⟩

/-- ASCII lowercasing, modelling `String.prototype.toLowerCase` on the app's inputs. -/
def jsToLower (s : String) : String := ⟨s.data.map Char.toLower⟩

/-- Codepoint-lexicographic strict comparison of character lists. -/
def chLt : List Char → List Char → Bool
  | [], [] => false
  | [], _ :: _ => true
  | _ :: _, [] => false
  | a :: as, b :: bs =>
    if a.toNat < b.toNat then true
    else if b.toNat < a.toNat then false
    else chLt as bs

/-- Model of a `localeCompare(a,b) <= 0` test on the app's timestamp /
market / symbol strings: codepoint-lexicographic order. -/
def strLe (a b : String) : Bool := !(chLt b.data a.data)

/-- JS `String.prototype.slice(0, n)`. -/
def sliceN (n : ℕ) (s : String) : String := ⟨s.data.take n⟩

/-- JS template-literal rendering of a possibly-null string (null prints as "null"). -/
def tmplStr : Option String → String
  | none => "null"
  | some s => s

/-- JS `Array.prototype.join` rendering of a possibly-null element (null joins as ""). -/
def joinStr : Option String → String
  | none => ""
  | some s => s

/-- Character-list version of the "starts with" test. -/
def isPrefOf : List Char → List Char → Bool
  | [], _ => true
  | _ :: _, [] => false
  | a :: as, b :: bs => a = b && isPrefOf as bs

/-- Character-list substring search (haystack first, needle second). -/
def hasSub : List Char → List Char → Bool
  | [], n => n.isEmpty
  | h :: t, n => isPrefOf n (h :: t) || hasSub t n

/-- JS `String.prototype.includes`. -/
def strIncludes (hay needle : String) : Bool := hasSub hay.data needle.data

/-- JS `Array.prototype.join` with a separator. -/
def joinWith (sep : String) : List String → String
  | [] => ""
  | [x] => x
  | x :: xs => x ++ sep ++ joinWith sep xs

/-! ## JS number parsing -/

/-- Numeric value of a digit string. -/
def digitsVal (l : List Char) : ℕ := l.foldl (fun n c => 10 * n + (c.toNat - 48)) 0

/-- JS `Number(string)` on the decimal forms the app handles: the empty
string is 0, else an optional sign and digits with an optional decimal
fraction.  Exponent, hex and `Infinity` forms are outside the modelled
input language; `none` stands for a NaN / non-finite result. -/
def parseJsNumBody (sg : ℚ) (l1 : List Char) : Option ℚ :=
  let ip := l1.takeWhile Char.isDigit
  match l1.dropWhile Char.isDigit with
  | [] => if ip.isEmpty then none else some (sg * (digitsVal ip : ℚ))
  | '.' :: fr =>
    let fp := fr.takeWhile Char.isDigit
    if (ip.isEmpty && fp.isEmpty) || !(fr.dropWhile Char.isDigit).isEmpty then none
    else some (sg * ((digitsVal ip : ℚ) + (digitsVal fp : ℚ) / (10 : ℚ) ^ fp.length))
  | _ => none

/-- See `parseJsNumBody`; this dispatches on the optional sign. -/
def parseJsNumber : List Char → Option ℚ
  | [] => some 0
  | '+' :: t => parseJsNumBody 1 t
  | '-' :: t => parseJsNumBody (-1) t
  | l => parseJsNumBody 1 l

/-- `Number(String(v).replace(/,/g,"").trim())` as used by `toNumber`
(app.js 76-79); `none` models a non-finite result. -/
def jsNum (v : String) : Option ℚ := parseJsNumber (jsTrim ⟨v.data.filter (· ≠ ',')⟩).data

/-- Model of `toNumber(v, def)` (app.js 76-79). -/
def toNumber (v : String) (dflt : ℚ) : ℚ := (jsNum v).getD dflt

/-! ## Data model -/

/-- A trade record (one element of the ledger's `lots` array).  `market` is
`none` for JS `null` (which unrecognized CSV market codes produce); `id` is
`none` for a record without an id.  `qty`, `price`, `fee` are the stored JS
numbers, modelled as exact rationals (replay re-reads them through
`toNumber`, which is the identity on finite numbers). -/
structure Rec where
  id : Option String
  timestamp : String
  market : Option String
  symbol : String
  type : String
  qty : ℚ
  price : ℚ
  fee : ℚ
  deriving DecidableEq, Repr

/-- The persisted/in-memory ledger document `{version, lots, lastSaved?}`. -/
structure Ledger where
  version : ℕ
  lots : List Rec
  lastSaved : Option String
  deriving DecidableEq, Repr

/-- Model of `saveLedger` (app.js 143-151): stamps `lastSaved` with the
current time and persists the full document; the primary storage and the
fire-and-forget backup receive the same bytes, so the persisted state is
the same ledger value. -/
def saveLedger (led : Ledger) (now : String) : Ledger := { led with lastSaved := some now }

/-- Model of `keyOf` (app.js 153), a JS template literal. -/
def keyOf (market : Option String) (symbol : String) : String := tmplStr market ++ "|" ++ symbol

/-- The instrument key of a record. -/
def recKey (r : Rec) : String := keyOf r.market r.symbol

/-- Model of `marketToCurrency` (app.js 100). -/
def marketToCurrency (m : Option String) : String := if m = some "TW" then "TWD" else "USD"

/-- Injective rendering of a JS number for the dedupe-key join (JS prints
distinct floats distinctly; we print the canonical `num/den` pair). -/
def ratStr (q : ℚ) : String := toString q.num ++ "/" ++ toString q.den

/-- Model of `recDedupeKey` (app.js 408-412): every field except the id,
joined with `|`; a null market joins as the empty string. -/
def recDedupeKey (r : Rec) : String :=
  joinStr r.market ++ "|" ++ r.symbol ++ "|" ++ r.type ++ "|" ++ r.timestamp ++ "|"
    ++ ratStr r.qty ++ "|" ++ ratStr r.price ++ "|" ++ ratStr r.fee

/-! ## Stable sort (model of `Array.prototype.sort`) -/

/-- Stable insertion of `x` in front of the first element it is `le` to. -/
def sIns (le : α → α → Bool) (x : α) : List α → List α
  | [] => [x]
  | y :: ys => if le x y then x :: y :: ys else y :: sIns le x ys

/-- Stable sort by `le`: models `Array.prototype.sort` with a two-way
comparator (ECMAScript sort is stable, and every stable sort by the same
comparator produces the same array). -/
def stableSortBy (le : α → α → Bool) : List α → List α
  | [] => []
  | x :: xs => sIns le x (stableSortBy le xs)

/-- The ubiquitous `sort((a,b) => String(a.timestamp).localeCompare(String(b.timestamp)))`. -/
def recTsLe (a b : Rec) : Bool := strLe a.timestamp b.timestamp

/-- Timestamp sort of a record list. -/
def sortByTs : List Rec → List Rec := stableSortBy recTsLe

/-! ## Replay engine -/

/-- Running position state of the replay loops. -/
structure Pos where
  qty : ℚ
  avg : ℚ
  realized : ℚ
  deriving DecidableEq, Repr

/-- The all-zero starting position. -/
def Pos.init : Pos := ⟨0, 0, 0⟩

/-- One replay step.  This is the (textually identical) loop body of
`computeHoldings` (app.js 168-178) and `buildLogForOne` (app.js 199-209):
a BUY folds the lot into the weighted average, a SELL realizes P&L against
the current average and clamps a non-positive remainder to an empty
position, and any other `type` leaves the state unchanged. -/
def applyRec (p : Pos) (r : Rec) : Pos :=
  if r.type = "BUY" then
    let totalCost := p.qty * p.avg + r.qty * r.price + r.fee
    let qty := p.qty + r.qty
    { p with qty := qty, avg := if 0 < qty then totalCost / qty else 0 }
  else if r.type = "SELL" then
    let proceeds := r.qty * r.price - r.fee
    let costBasis := r.qty * p.avg
    let realized := p.realized + (proceeds - costBasis)
    let qty := p.qty - r.qty
    if qty ≤ 0 then { qty := 0, avg := 0, realized := realized }
    else { p with qty := qty, realized := realized }
  else p

/-- One timeline entry emitted by `buildLogForOne` (app.js 210-220). -/
structure Entry where
  idx : ℕ
  id : Option String
  ts : String
  side : String
  q : ℚ
  px : ℚ
  avg : ℚ
  afterQty : ℚ
  fee : ℚ
  deriving DecidableEq, Repr

/-- JS `r.id || null`: an absent or empty id renders as null. -/
def idOrNull : Option String → Option String
  | none => none
  | some s => if s = "" then none else some s

/-- The `buildLogForOne` loop: replays records in order, emitting one entry
per record with the 1-based index `i`, the average cost and the holding
after the event. -/
def replayRows : Pos → ℕ → List Rec → Pos × List Entry
  | p, _, [] => (p, [])
  | p, i, r :: rest =>
    let p' := applyRec p r
    ((replayRows p' (i + 1) rest).1,
     { idx := i, id := idOrNull r.id, ts := r.timestamp, side := r.type,
       q := r.qty, px := r.price, avg := p'.avg, afterQty := p'.qty, fee := r.fee }
       :: (replayRows p' (i + 1) rest).2)

/-- Result record of `buildLogForOne`. -/
structure LogResult where
  currency : String
  holdingQty : ℚ
  avgCost : ℚ
  realizedPnl : ℚ
  rows : List Entry
  deriving DecidableEq, Repr

/-- The record filter of `buildLogForOne` / `validateNoOversell`
(`x.market===market && x.symbol===symbol`). -/
def matchesKey (market : Option String) (symbol : String) (x : Rec) : Bool :=
  decide (x.market = market ∧ x.symbol = symbol)

/-- Model of `buildLogForOne` (app.js 183-223). -/
def buildLogForOne (led : Ledger) (market : Option String) (symbol : String) : LogResult :=
  let rows := sortByTs (led.lots.filter (matchesKey market symbol))
  let pt := replayRows Pos.init 1 rows
  { currency := marketToCurrency market, holdingQty := pt.1.qty, avgCost := pt.1.avg,
    realizedPnl := pt.1.realized, rows := pt.2 }

/-! ## Holdings aggregation -/

/-- One `map[key]` object of `computeHoldings` (app.js 163). -/
structure HEnt where
  market : Option String
  symbol : String
  currency : String
  pos : Pos
  deriving DecidableEq, Repr

/-- The freshly created `map[key]` object for the first record of a key. -/
def freshEnt (r : Rec) : HEnt := ⟨r.market, r.symbol, marketToCurrency r.market, Pos.init⟩

/-- Association-list lookup (JS object property read). -/
def assocFind : List (String × HEnt) → String → Option HEnt
  | [], _ => none
  | (k', v) :: t, k => if k' = k then some v else assocFind t k

/-- One iteration of the `computeHoldings` loop: create the key's object if
absent (appended, as JS objects keep string-key insertion order), then apply
the record to its position. -/
def hStep : List (String × HEnt) → Rec → List (String × HEnt)
  | [], r => [(recKey r, { freshEnt r with pos := applyRec Pos.init r })]
  | (k', v) :: t, r =>
    if k' = recKey r then (k', { v with pos := applyRec v.pos r }) :: t
    else (k', v) :: hStep t r

/-- The `computeHoldings` loop over all (timestamp-sorted) records. -/
def hFold : List (String × HEnt) → List Rec → List (String × HEnt)
  | acc, [] => acc
  | acc, r :: rest => hFold (hStep acc r) rest

/-- The `Object.values(map).filter(...)` condition of app.js 180. -/
def holdKeep (p : HEnt) : Bool :=
  decide (0 < p.pos.qty) || decide ((1 : ℚ) / 1000000 < |p.pos.realized|)

/-- Model of `computeHoldings` (app.js 155-181). -/
def computeHoldings (led : Ledger) : List HEnt :=
  ((hFold [] (sortByTs led.lots)).map Prod.snd).filter holdKeep

/-- The holdings-table comparator (app.js 698):
`a.market.localeCompare(b.market) || a.symbol.localeCompare(b.symbol)` as a
`<= 0` test.  A null market would make the code throw; the model totalizes
it with the template rendering, and the theorems about it restrict markets
to the app's codes. -/
def holdLe (a b : HEnt) : Bool :=
  if tmplStr a.market = tmplStr b.market then strLe a.symbol b.symbol
  else strLe (tmplStr a.market) (tmplStr b.market)

/-- Model of the holdings-table rows (app.js 695-716): `computeHoldings`
sorted by market then symbol. -/
def holdingsRows (led : Ledger) : List HEnt := stableSortBy holdLe (computeHoldings led)

/-! ## Timestamp and input normalization -/

/-- The `^\d{4}-\d{2}-\d{2}$` date pattern. -/
def matchDate (s : String) : Bool :=
  match s.data with
  | [a, b, c, d, e, f, g, h, i, j] =>
    a.isDigit && b.isDigit && c.isDigit && d.isDigit && e = '-'
      && f.isDigit && g.isDigit && h = '-' && i.isDigit && j.isDigit
  | _ => false

/-- The `^\d{2}:\d{2}$` time pattern. -/
def matchHM (s : String) : Bool :=
  match s.data with
  | [a, b, c, d, e] => a.isDigit && b.isDigit && c = ':' && d.isDigit && e.isDigit
  | _ => false

/-- The `^\d{2}:\d{2}:\d{2}$` time pattern. -/
def matchHMS (s : String) : Bool :=
  match s.data with
  | [a, b, c, d, e, f, g, h] =>
    a.isDigit && b.isDigit && c = ':' && d.isDigit && e.isDigit
      && f = ':' && g.isDigit && h.isDigit
  | _ => false

/-- The `^\d{1}:\d{2}$` time pattern. -/
def matchH1M (s : String) : Bool :=
  match s.data with
  | [a, b, c, d] => a.isDigit && b = ':' && c.isDigit && d.isDigit
  | _ => false

/-- Model of `parseTimestamp` (app.js 267-274): strict date, optional
`HH:MM`/`HH:MM:SS` time defaulting to midnight, yielding the canonical
`YYYY-MM-DD HH:MM:SS` string. -/
def parseTimestamp (dateStr timeStr : String) : Option String :=
  let d := jsTrim dateStr
  if !matchDate d then none
  else
    let t := jsTrim timeStr
    if t = "" then some (d ++ " " ++ "00:00:00")
    else if matchHM t then some (d ++ " " ++ t ++ ":00")
    else if matchHMS t then some (d ++ " " ++ t)
    else none

/-- Model of `normalizeMarket` (app.js 92-95). -/
def normalizeMarket (m : String) : Option String :=
  let s := jsToUpper (jsTrim m)
  if s = "TW" || s = "US" then some s else none

/-- Model of `normalizeSymbol` (app.js 96-99). -/
def normalizeSymbol (m : Option String) (s : String) : String :=
  let t := jsTrim s
  if m = some "US" then jsToUpper t else t

/-! ## Mutation validator -/

/-- The `validateNoOversell` loop (app.js 996-1012): positive-quantity check
on every record, running holding via BUY/SELL (other types leave it
unchanged), failing the first SELL that exceeds the holding by more than
1e-9.  Number formatting inside the messages is abbreviated; the claims
only inspect acceptance. -/
def vnoLoop : ℚ → List Rec → Option String
  | _, [] => none
  | holding, r :: rest =>
    if r.qty ≤ 0 then some ("發現不合法的數量：" ++ sliceN 16 r.timestamp)
    else if r.type = "BUY" then vnoLoop (holding + r.qty) rest
    else if r.type = "SELL" then
      if holding + (1 : ℚ) / 1000000000 < r.qty then
        some ("修改後會造成賣出超過當時庫存。時間：" ++ sliceN 16 r.timestamp)
      else vnoLoop (holding - r.qty) rest
    else vnoLoop holding rest

/-- Model of `validateNoOversell` (app.js 990-1014); `none` is `{ok:true}`,
`some msg` the rejection. -/
def validateNoOversell (led : Ledger) (market : Option String) (symbol : String) : Option String :=
  vnoLoop 0 (sortByTs (led.lots.filter (matchesKey market symbol)))

/-- The message of `findNegativeHoldings` (app.js 589). -/
def negMsg (r : Rec) : String :=
  "資料不合法：" ++ r.symbol ++ " 在 " ++ r.timestamp
    ++ " 賣出後庫存變成負數。請檢查 CSV 是否有少了買入或日期排序不正確。"

/-- Per-key quantity map lookup of `findNegativeHoldings`. -/
def qFind : List (String × ℚ) → String → Option ℚ
  | [], _ => none
  | (k', v) :: t, k => if k' = k then some v else qFind t k

/-- Per-key quantity map update of `findNegativeHoldings`. -/
def qSet : List (String × ℚ) → String → ℚ → List (String × ℚ)
  | [], k, v => [(k, v)]
  | (k', v') :: t, k, v => if k' = k then (k, v) :: t else (k', v') :: qSet t k v

/-- The `findNegativeHoldings` scan (app.js 583-592): quantity-only replay
over the whole sorted ledger; note that every non-BUY type subtracts. -/
def fnhLoop : List (String × ℚ) → List Rec → Option String
  | _, [] => none
  | m, r :: rest =>
    let cur := (qFind m (recKey r)).getD 0
    let next := if r.type = "BUY" then cur + r.qty else cur - r.qty
    if next < -((1 : ℚ) / 1000000000) then some (negMsg r)
    else fnhLoop (qSet m (recKey r) next) rest

/-- Model of `findNegativeHoldings` (app.js 578-595). -/
def findNegativeHoldings (led : Ledger) : Option String := fnhLoop [] (sortByTs led.lots)

/-! ## addTrade and the trade editor -/

/-- The app's state: the in-memory global `ledger` and the persisted
document (primary storage; the async IndexedDB backup mirrors it).  The
model keeps the persisted document as a ledger value - `loadLedger` parses
it back; the legacy-key scan and the malformed-document fallback are
outside the claims' scope. -/
structure AppState where
  mem : Ledger
  store : Ledger
  deriving DecidableEq, Repr

/-- Model of `addTrade` (app.js 652-693) on the raw form inputs: validates
them, rejects a SELL whose quantity exceeds the instrument's current
terminal holding (`buildLogForOne(...).holdingQty`), else appends the
record and saves.  The second component is the alert message on rejection
(`none` = accepted); rejection messages are abbreviated. -/
def addTrade (st : AppState) (marketRaw sideRaw symbolRaw dateRaw timeRaw qtyRaw priceRaw feeRaw : String)
    (newId now : String) : AppState × Option String :=
  let market := normalizeMarket marketRaw
  let symbol := normalizeSymbol market symbolRaw
  let fee := if feeRaw = "" then 0 else toNumber feeRaw 0
  if market = none then (st, some "市場錯誤")
  else if symbol = "" then (st, some "請輸入股票代號")
  else
    match parseTimestamp dateRaw timeRaw with
    | none => (st, some "日期格式請用 YYYY-MM-DD，時間可留空或用 HH:mm")
    | some ts =>
      match jsNum qtyRaw with
      | none => (st, some "數量需為正數")
      | some qty =>
        if qty ≤ 0 then (st, some "數量需為正數")
        else
          match jsNum priceRaw with
          | none => (st, some "價格需為正數")
          | some price =>
            if price ≤ 0 then (st, some "價格需為正數")
            else if sideRaw = "SELL" && decide ((buildLogForOne st.mem market symbol).holdingQty < qty) then
              (st, some "庫存不足，不能賣出")
            else
              let rec1 : Rec := ⟨some newId, ts, market, symbol, sideRaw, qty, price, fee⟩
              let led' := saveLedger { st.mem with lots := st.mem.lots ++ [rec1] } now
              ({ mem := led', store := led' }, none)

/-- `findIndex(x => String(x.id) === tid)` followed by the in-place patch of
timestamp/qty/price/fee (app.js 952-960); returns the patched list and the
patched record. -/
def patchById : List Rec → String → String → ℚ → ℚ → ℚ → Option (List Rec × Rec)
  | [], _, _, _, _, _ => none
  | x :: t, tid, ts, q, p, f =>
    if tmplStr x.id = tid then
      let x' := { x with timestamp := ts, qty := q, price := p, fee := f }
      some (x' :: t, x')
    else
      match patchById t tid ts q p f with
      | none => none
      | some (t', r) => some (x :: t', r)

/-- Model of the trade-editor save handler (app.js 936-986): validates the
inputs, reloads the persisted ledger, patches the record there, validates
the instrument with `validateNoOversell`, and commits + saves only when the
validation passes.  Second component: the rejection message (`none` =
committed). -/
def editSave (st : AppState) (tid dateRaw timeRaw qtyRaw priceRaw feeRaw : String)
    (now : String) : AppState × Option String :=
  match parseTimestamp dateRaw timeRaw with
  | none => (st, some "日期/時間格式不正確")
  | some nextTs =>
    match jsNum qtyRaw with
    | none => (st, some "數量需為正數")
    | some nextQty =>
      if nextQty ≤ 0 then (st, some "數量需為正數")
      else
        match jsNum priceRaw with
        | none => (st, some "價格需為正數")
        | some nextPrice =>
          if nextPrice ≤ 0 then (st, some "價格需為正數")
          else
            match if jsTrim feeRaw = "" then some 0 else jsNum feeRaw with
            | none => (st, some "手續費需為 0 或正數")
            | some nextFee =>
              if nextFee < 0 then (st, some "手續費需為 0 或正數")
              else
                match patchById st.store.lots tid nextTs nextQty nextPrice nextFee with
                | none => (st, some "儲存失敗：此筆交易已不存在")
                | some (lots', rr) =>
                  let next := { st.store with lots := lots' }
                  match validateNoOversell next rr.market rr.symbol with
                  | some msg => (st, some msg)
                  | none =>
                    let saved := saveLedger next now
                    ({ mem := saved, store := saved }, none)

/-! ## CSV parsing -/

/-- Split on `\r?\n` (a lone `\r` is not a separator), accumulator-first. -/
def splitLines : List Char → List Char → List (List Char)
  | cur, [] => [cur.reverse]
  | cur, '\r' :: '\n' :: t => cur.reverse :: splitLines [] t
  | cur, '\n' :: t => cur.reverse :: splitLines [] t
  | cur, c :: t => splitLines (c :: cur) t

/-- Occurrences of a character in a line. -/
def countCh (c : Char) (l : List Char) : ℕ := (l.filter (· = c)).length

/-- Model of `detectCsvDelimiter` (app.js 282-290): the first of
comma/semicolon/tab with the strictly largest count in the first line. -/
def detectCsvDelimiter (l : List Char) : Char :=
  let c1 := countCh ',' l
  let c2 := countCh ';' l
  let c3 := countCh '\t' l
  let n2 := if c2 > c1 then c2 else c1
  if c3 > n2 then '\t' else if c2 > c1 then ';' else ','

/-- The quoted-cell state machine of `parseCsv` (app.js 300-324):
arguments are the remaining characters, the in-quote flag and the reversed
current cell. -/
def parseLineQ (delim : Char) : List Char → Bool → List Char → List (List Char)
  | [], _, cur => [cur.reverse]
  | '"' :: '"' :: t2, true, cur => parseLineQ delim t2 true ('"' :: cur)
  | '"' :: t, true, cur => parseLineQ delim t false cur
  | c :: t, true, cur => parseLineQ delim t true (c :: cur)
  | c :: t, false, cur =>
    if c = '"' then parseLineQ delim t true cur
    else if c = delim then cur.reverse :: parseLineQ delim t false []
    else parseLineQ delim t false (c :: cur)

/-- The English header keywords of the `looksLikeHeader` regex (app.js 332). -/
def enHeaderWords : List String := ["market", "symbol", "side", "date", "time", "qty", "price", "fee"]

/-- The Chinese header keywords of the `looksLikeHeader` regex (app.js 333). -/
def zhHeaderWords : List String :=
  ["市場", "代號", "股票", "買", "賣", "日期", "時間", "數量", "價格", "手續費"]

/-- Result of `parseCsv`. -/
structure ParsedCsv where
  header : Option (List String)
  rows : List (List String)
  deriving DecidableEq, Repr

/-- Model of `parseCsv` (app.js 292-337): strip the BOM, split and drop
blank lines, detect the delimiter on the first line, run the quote machine
per line trimming every cell, then split off a header row when the first
row contains a known header keyword. -/
def parseCsv (text : String) : ParsedCsv :=
  let s := text.data.filter (· ≠ Char.ofNat 65279)
  let lines := (splitLines [] s).filter (fun l => jsTrim ⟨l⟩ ≠ "")
  match lines with
  | [] => { header := none, rows := [] }
  | l0 :: _ =>
    let delim := detectCsvDelimiter l0
    let rows := lines.map (fun l => (parseLineQ delim l false []).map (fun cell => jsTrim ⟨cell⟩))
    match rows with
    | [] => { header := none, rows := [] }
    | hdr :: rest =>
      let looks := enHeaderWords.any (fun w => strIncludes (jsToLower (joinWith "|" hdr)) w)
        || zhHeaderWords.any (fun w => strIncludes (joinWith "|" hdr) w)
      if looks then { header := some hdr, rows := rest }
      else { header := none, rows := hdr :: rest }

/-- The header-to-column map of `csvHeaderIndexMap` (app.js 339-367). -/
structure IdxMap where
  market : Option ℕ
  symbol : Option ℕ
  side : Option ℕ
  date : Option ℕ
  time : Option ℕ
  qty : Option ℕ
  price : Option ℕ
  fee : Option ℕ
  deriving DecidableEq, Repr

/-- The exact-match pass of `idxOf` (keys outermost). -/
def idxExact : List String → List String → Option ℕ
  | _, [] => none
  | norm, k :: ks =>
    match norm.findIdx? (fun x => x = jsToLower k) with
    | some i => some i
    | none => idxExact norm ks

/-- The partial-match pass of `idxOf` (positions outermost). -/
def idxPartial (norm : List String) (keys : List String) : Option ℕ :=
  (norm.enum.find? (fun p => keys.any (fun k => strIncludes p.2 (jsToLower k)))).map Prod.fst

/-- `idxOf` (app.js 343-356): exact match first, then substring match. -/
def idxOf (norm : List String) (keys : List String) : Option ℕ :=
  match idxExact norm keys with
  | some i => some i
  | none => idxPartial norm keys

/-- Model of `csvHeaderIndexMap` (app.js 339-367). -/
def csvHeaderIndexMap : Option (List String) → IdxMap
  | none => ⟨none, none, none, none, none, none, none, none⟩
  | some header =>
    let norm := header.map (fun h => jsToLower (jsTrim h))
    { market := idxOf norm ["market", "市場"],
      symbol := idxOf norm ["symbol", "股票代號", "代號", "ticker"],
      side := idxOf norm ["side", "買賣", "買/賣", "type"],
      date := idxOf norm ["date", "日期"],
      time := idxOf norm ["time", "時間"],
      qty := idxOf norm ["qty", "quantity", "數量", "股數"],
      price := idxOf norm ["price", "價格", "單價"],
      fee := idxOf norm ["fee", "手續費", "commission"] }

/-- Model of `normalizeCsvSide` (app.js 369-378). -/
def normalizeCsvSide (v : String) : Option String :=
  let s := jsToUpper (jsTrim v)
  if s = "" then none
  else if s = "BUY" || s = "B" then some "BUY"
  else if s = "SELL" || s = "S" then some "SELL"
  else if strIncludes (jsTrim v) "買" then some "BUY"
  else if strIncludes (jsTrim v) "賣" then some "SELL"
  else none

/-- Model of `normalizeCsvDate` (app.js 380-390). -/
def normalizeCsvDate (v : String) : Option String :=
  let s0 := jsTrim v
  if s0 = "" then none
  else
    let s1 : String := ⟨s0.data.map (fun c => if c = '.' || c = '/' then '-' else c)⟩
    let s2 := if s1.data.length = 8 && s1.data.all Char.isDigit then
        (⟨s1.data.take 4⟩ : String) ++ "-" ++ (⟨(s1.data.drop 4).take 2⟩ : String)
          ++ "-" ++ (⟨s1.data.drop 6⟩ : String)
      else s1
    if matchDate s2 then some s2 else none

/-- Model of `normalizeCsvTime` (app.js 392-400). -/
def normalizeCsvTime (v : String) : Option String :=
  let s0 := jsTrim v
  if s0 = "" then some "09:00"
  else
    let s1 := if matchH1M s0 then "0" ++ s0 else s0
    if matchHMS s1 then some (sliceN 5 s1)
    else if matchHM s1 then some s1
    else none

/-- Model of `inferMarketFromSymbol` (app.js 402-406): a purely numeric
4-6 digit symbol implies TW, anything else US. -/
def inferMarketFromSymbol (symbol : String) : String :=
  let s := jsTrim symbol
  if s.data.all Char.isDigit && decide (4 ≤ s.data.length) && decide (s.data.length ≤ 6)
  then "TW" else "US"

/-! ## CSV import -/

/-- The per-row error kinds of `importCsvIntoLedger`. -/
inductive RowErr where
  | missingSymbol | badSide | badDate | badTime | badTs | badQty | badPrice | badFee
  deriving DecidableEq, Repr

/-- The Chinese text of each per-row error (app.js 515-538). -/
def errText : RowErr → String
  | .missingSymbol => "缺少股票代號"
  | .badSide => "買/賣(side) 需為 BUY/SELL 或含 買/賣"
  | .badDate => "日期(date) 格式需為 YYYY-MM-DD"
  | .badTime => "時間(time) 格式需為 HH:mm，可空白"
  | .badTs => "日期/時間無法解析"
  | .badQty => "數量(qty)需為正數"
  | .badPrice => "價格(price)需為正數"
  | .badFee => "手續費(fee)需為 0 或正數"

/-- A per-row error message with its 1-based row number. -/
def rowErrMsg (i : ℕ) (e : RowErr) : String := "第 " ++ toString (i + 1) ++ " 列：" ++ errText e

/-- The candidate-record fields a valid CSV row normalizes to (everything of
a `Rec` except the id). -/
structure RecFields where
  timestamp : String
  market : Option String
  symbol : String
  type : String
  qty : ℚ
  price : ℚ
  fee : ℚ
  deriving DecidableEq, Repr

/-- Build the staged record `{id:uuid(), ...}` (app.js 540). -/
def mkRec (id : String) (f : RecFields) : Rec :=
  ⟨some id, f.timestamp, f.market, f.symbol, f.type, f.qty, f.price, f.fee⟩

/-- The `col` helper (app.js 495-499) with its no-header fallback index. -/
def colAt (hasHeader : Bool) (row : List String) (idx : Option ℕ) (fb : ℕ) : String :=
  match idx with
  | some i => row.getD i ""
  | none => if hasHeader then "" else row.getD fb ""

/-- Per-row normalization and validation of `importCsvIntoLedger`
(app.js 505-540) for a non-blank row, in the source's check order. -/
def rowCheck (hasHeader : Bool) (im : IdxMap) (row : List String) : Except RowErr RecFields :=
  let marketRaw := colAt hasHeader row im.market 0
  let symbol0 := jsTrim (colAt hasHeader row im.symbol 1)
  if symbol0 = "" then .error .missingSymbol
  else
    let market0 := if jsTrim marketRaw ≠ "" then normalizeMarket marketRaw
                   else some (inferMarketFromSymbol symbol0)
    let symbol := normalizeSymbol market0 symbol0
    match normalizeCsvSide (colAt hasHeader row im.side 2) with
    | none => .error .badSide
    | some side =>
      match normalizeCsvDate (colAt hasHeader row im.date 3) with
      | none => .error .badDate
      | some date =>
        match normalizeCsvTime (colAt hasHeader row im.time 4) with
        | none => .error .badTime
        | some time =>
          match parseTimestamp date time with
          | none => .error .badTs
          | some ts =>
            match jsNum (colAt hasHeader row im.qty 5) with
            | none => .error .badQty
            | some qty =>
              if qty ≤ 0 then .error .badQty
              else
                match jsNum (colAt hasHeader row im.price 6) with
                | none => .error .badPrice
                | some price =>
                  if price ≤ 0 then .error .badPrice
                  else
                    let feeRaw := colAt hasHeader row im.fee 7
                    match if jsTrim feeRaw = "" then some (0 : ℚ) else jsNum feeRaw with
                    | none => .error .badFee
                    | some fee =>
                      if jsTrim feeRaw ≠ "" && decide (fee < 0) then .error .badFee
                      else .ok { timestamp := ts, market := market0, symbol := symbol,
                                 type := side, qty := qty, price := price, fee := fee }

/-- The loop state of `importCsvIntoLedger`: the staged `ledger.lots`, the
`existing` dedupe-key set, the three counters and the uuid-supply cursor. -/
structure LoopSt where
  lots : List Rec
  ex : List String
  imported : ℕ
  skipped : ℕ
  errors : List String
  nextId : ℕ
  deriving DecidableEq, Repr

/-- `row.every(v => String(v||"").trim() === "")` (app.js 503). -/
def rowBlank (row : List String) : Bool := row.all (fun v => jsTrim v = "")

/-- One iteration of the import loop (app.js 501-551): skip blank rows,
collect per-row errors, skip duplicate dedupe keys, else stage the record. -/
def stepRow (hasHeader : Bool) (im : IdxMap) (ids : ℕ → String) (i : ℕ) (st : LoopSt)
    (row : List String) : LoopSt :=
  if rowBlank row then st
  else
    match rowCheck hasHeader im row with
    | .error e => { st with errors := st.errors ++ [rowErrMsg i e] }
    | .ok f =>
      let rec1 := mkRec (ids st.nextId) f
      let st1 := { st with nextId := st.nextId + 1 }
      let k := recDedupeKey rec1
      if decide (k ∈ st1.ex) then { st1 with skipped := st1.skipped + 1 }
      else { st1 with lots := st1.lots ++ [rec1], ex := k :: st1.ex,
                      imported := st1.imported + 1 }

/-- The import loop over all parsed rows (`i` is the 0-based row number used
in error messages). -/
def importLoop (hasHeader : Bool) (im : IdxMap) (ids : ℕ → String) :
    ℕ → LoopSt → List (List String) → LoopSt
  | _, st, [] => st
  | i, st, row :: rest => importLoop hasHeader im ids (i + 1) (stepRow hasHeader im ids i st row) rest

/-- The result counts of a committed import. -/
structure ImportRes where
  imported : ℕ
  skipped : ℕ
  errors : List String
  deriving DecidableEq, Repr

instance {ε α : Type _} [DecidableEq ε] [DecidableEq α] : DecidableEq (Except ε α) := fun a b =>
  match a, b with
  | .ok x, .ok y =>
    match decEq x y with
    | isTrue h => isTrue (by rw [h])
    | isFalse h => isFalse (fun hc => h (Except.ok.inj hc))
  | .error x, .error y =>
    match decEq x y with
    | isTrue h => isTrue (by rw [h])
    | isFalse h => isFalse (fun hc => h (Except.error.inj hc))
  | .ok _, .error _ => isFalse (fun hc => Except.noConfusion hc)
  | .error _, .ok _ => isFalse (fun hc => Except.noConfusion hc)

/-- The loop state after staging a whole batch onto a ledger. -/
def importRun (text : String) (led : Ledger) (ids : ℕ → String) : LoopSt :=
  let pr := parseCsv text
  importLoop pr.header.isSome (csvHeaderIndexMap pr.header) ids 0
    { lots := led.lots, ex := led.lots.map recDedupeKey, imported := 0, skipped := 0,
      errors := [], nextId := 0 } pr.rows

/-- The staged ledger after the row loop and the re-sort (app.js 548-554),
before the negative-holdings scan. -/
def importMerged (text : String) (led : Ledger) (ids : ℕ → String) : Ledger :=
  { led with lots := sortByTs (importRun text led ids).lots }

/-- Model of `importCsvIntoLedger` (app.js 483-575): stage every acceptable
row, re-sort the whole `lots` array, scan the entire ledger for negative
holdings, and either commit or roll back to the entry snapshot (which
`saveLedger` re-stamps and persists).  The first component is the resulting
in-memory = persisted ledger; the `Except` carries the thrown message or
the result counts (the success message rendering is omitted). -/
def importCsvIntoLedger (text : String) (led : Ledger) (now : String) (ids : ℕ → String) :
    Ledger × Except String ImportRes :=
  if (parseCsv text).rows.isEmpty then (led, .error "CSV 沒有資料列")
  else
    let fin := importRun text led ids
    let merged := importMerged text led ids
    match findNegativeHoldings merged with
    | some msg => (saveLedger led now, .error msg)
    | none =>
      (saveLedger merged now,
       .ok { imported := fin.imported, skipped := fin.skipped, errors := fin.errors })

/-! ## Order lemmas for the comparator model -/

lemma char_eq_of_toNat_eq {a b : Char} (h : a.toNat = b.toNat) : a = b :=
  Char.ext (UInt32.toNat.inj h)

lemma chLt_irrefl : ∀ l : List Char, chLt l l = false
  | [] => rfl
  | a :: as => by simp [chLt, chLt_irrefl as]

lemma chLt_asymm : ∀ a b : List Char, chLt a b = true → chLt b a = false
  | [], [], h => by simp [chLt] at h
  | [], _ :: _, _ => rfl
  | _ :: _, [], h => by simp [chLt] at h
  | a :: as, b :: bs, h => by
    simp only [chLt] at h ⊢
    rcases Nat.lt_trichotomy a.toNat b.toNat with hlt | heq | hgt
    · simp [hlt, Nat.lt_asymm hlt]
    · simp only [heq, lt_irrefl, if_false] at h ⊢
      exact chLt_asymm as bs h
    · simp [hgt, Nat.lt_asymm hgt] at h

lemma chLt_conn : ∀ a b : List Char, chLt a b = false → chLt b a = false → a = b
  | [], [], _, _ => rfl
  | [], _ :: _, h, _ => by simp [chLt] at h
  | _ :: _, [], _, h => by simp [chLt] at h
  | a :: as, b :: bs, h1, h2 => by
    simp only [chLt] at h1 h2
    rcases Nat.lt_trichotomy a.toNat b.toNat with hlt | heq | hgt
    · simp [hlt] at h1
    · have hab : a = b := char_eq_of_toNat_eq heq
      subst hab
      simp only [lt_irrefl, if_false] at h1 h2
      rw [chLt_conn as bs h1 h2]
    · simp [hgt] at h2

lemma chLt_trans : ∀ a b c : List Char, chLt a b = true → chLt b c = true → chLt a c = true
  | [], _ :: _, _ :: _, _, _ => rfl
  | [], _ :: _, [], _, h2 => by simp [chLt] at h2
  | [], [], _, h1, _ => by simp [chLt] at h1
  | _ :: _, [], _, h1, _ => by simp [chLt] at h1
  | _ :: _, _ :: _, [], _, h2 => by simp [chLt] at h2
  | a :: as, b :: bs, c :: cs, h1, h2 => by
    simp only [chLt] at h1 h2 ⊢
    rcases Nat.lt_trichotomy a.toNat b.toNat with hab | hab | hab
    · rcases Nat.lt_trichotomy b.toNat c.toNat with hbc | hbc | hbc
      · simp [Nat.lt_trans hab hbc]
      · simp [hbc ▸ hab]
      · simp [hbc, Nat.lt_asymm hbc] at h2
    · rcases Nat.lt_trichotomy b.toNat c.toNat with hbc | hbc | hbc
      · simp [hab ▸ hbc]
      · have hac : a.toNat = c.toNat := hab.trans hbc
        simp only [hab, hbc, lt_irrefl, if_false] at h1 h2
        simp only [hac, lt_irrefl, if_false]
        exact chLt_trans as bs cs h1 h2
      · simp [hbc, Nat.lt_asymm hbc] at h2
    · simp [hab, Nat.lt_asymm hab] at h1

lemma strLe_total (a b : String) : strLe a b = true ∨ strLe b a = true := by
  by_cases h : chLt b.data a.data = true
  · right
    simp [strLe, chLt_asymm _ _ h]
  · left
    simp [strLe] at h ⊢
    exact h

lemma strLe_trans {a b c : String} (h1 : strLe a b = true) (h2 : strLe b c = true) :
    strLe a c = true := by
  simp only [strLe, Bool.not_eq_true'] at h1 h2 ⊢
  by_contra hc
  have hca : chLt c.data a.data = true := by
    cases h : chLt c.data a.data
    · exact absurd h hc
    · rfl
  rcases Or.symm (Decidable.em (chLt a.data b.data = true)) with hab | hab
  · have hab' : a.data = b.data := chLt_conn _ _ (by
      cases h : chLt a.data b.data
      · rfl
      · exact absurd h hab) h1
    exact absurd (hab' ▸ hca) (by simp [h2])
  · rcases Or.symm (Decidable.em (chLt b.data c.data = true)) with hbc | hbc
    · have hbc' : b.data = c.data := chLt_conn _ _ (by
        cases h : chLt b.data c.data
        · rfl
        · exact absurd h hbc) h2
      exact absurd (hbc' ▸ h1) (by simp [hca])
    · have : chLt a.data c.data = true := chLt_trans _ _ _ hab hbc
      have := chLt_trans _ _ _ this hca
      simp [chLt_irrefl] at this

lemma strLe_antisymm {a b : String} (h1 : strLe a b = true) (h2 : strLe b a = true) : a = b := by
  simp only [strLe, Bool.not_eq_true'] at h1 h2
  exact String.ext (chLt_conn _ _ h2 h1)

lemma strLe_refl (a : String) : strLe a a = true := by
  simp [strLe, chLt_irrefl]

/-! ## Stable-sort lemmas -/

section SortLemmas

variable {α : Type _} (le : α → α → Bool)

lemma sIns_perm (x : α) : ∀ l : List α, (sIns le x l).Perm (x :: l)
  | [] => .refl _
  | y :: ys => by
    simp only [sIns]
    by_cases h : le x y = true
    · simp [h]
    · simp only [h, if_false]
      exact ((sIns_perm x ys).cons y).trans (List.Perm.swap x y ys)

lemma stableSortBy_perm : ∀ l : List α, (stableSortBy le l).Perm l
  | [] => .refl _
  | x :: xs => (sIns_perm le x _).trans ((stableSortBy_perm xs).cons x)

lemma mem_sIns {x z : α} {l : List α} : z ∈ sIns le x l ↔ z = x ∨ z ∈ l :=
  by simpa using (sIns_perm le x l).mem_iff

lemma sIns_sorted (htot : ∀ a b, le a b = true ∨ le b a = true)
    (htrans : ∀ a b c, le a b = true → le b c = true → le a c = true) (x : α) :
    ∀ l : List α, l.Pairwise (fun a b => le a b = true) →
      (sIns le x l).Pairwise (fun a b => le a b = true)
  | [], _ => by simp [sIns]
  | y :: ys, hp => by
    rcases List.pairwise_cons.mp hp with ⟨hy, hys⟩
    simp only [sIns]
    by_cases h : le x y = true
    · rw [if_pos h]
      refine List.pairwise_cons.mpr ⟨?_, hp⟩
      intro z hz
      rcases List.mem_cons.mp hz with hz | hz
      · exact hz ▸ h
      · exact htrans x y z h (hy z hz)
    · rw [if_neg h]
      have hyx : le y x = true := (htot x y).resolve_left h
      refine List.pairwise_cons.mpr ⟨?_, sIns_sorted htot htrans x ys hys⟩
      intro z hz
      rcases (mem_sIns le).mp hz with hz | hz
      · exact hz ▸ hyx
      · exact hy z hz

lemma stableSortBy_sorted (htot : ∀ a b, le a b = true ∨ le b a = true)
    (htrans : ∀ a b c, le a b = true → le b c = true → le a c = true) :
    ∀ l : List α, (stableSortBy le l).Pairwise (fun a b => le a b = true)
  | [] => by simp [stableSortBy]
  | x :: xs => sIns_sorted le htot htrans x _ (stableSortBy_sorted htot htrans xs)

lemma sIns_eq_cons {x : α} {l : List α} (h : ∀ z ∈ l, le x z = true) :
    sIns le x l = x :: l := by
  cases l with
  | nil => rfl
  | cons y ys => simp [sIns, h y (List.mem_cons_self y ys)]

lemma stableSortBy_of_sorted : ∀ {l : List α},
    l.Pairwise (fun a b => le a b = true) → stableSortBy le l = l := by
  intro l
  induction l with
  | nil => intro _; rfl
  | cons x xs ih =>
    intro hp
    rcases List.pairwise_cons.mp hp with ⟨hx, hxs⟩
    simp only [stableSortBy, ih hxs]
    exact sIns_eq_cons le hx

lemma sIns_filter (htrans : ∀ a b c, le a b = true → le b c = true → le a c = true)
    (p : α → Bool) (x : α) : ∀ l : List α, l.Pairwise (fun a b => le a b = true) →
    (sIns le x l).filter p = if p x then sIns le x (l.filter p) else l.filter p
  | [], _ => by
    cases hpx : p x <;> simp [sIns, List.filter, hpx]
  | y :: ys, hp => by
    rcases List.pairwise_cons.mp hp with ⟨hy, hys⟩
    simp only [sIns]
    by_cases hxy : le x y = true
    · rw [if_pos hxy]
      have hall : ∀ z ∈ (y :: ys).filter p, le x z = true := by
        intro z hz
        rcases List.mem_filter.mp hz with ⟨hz, _⟩
        rcases List.mem_cons.mp hz with hz | hz
        · exact hz ▸ hxy
        · exact htrans x y z hxy (hy z hz)
      cases hpx : p x
      · simp [List.filter_cons, hpx]
      · rw [sIns_eq_cons le hall]
        simp [List.filter_cons, hpx]
    · rw [if_neg hxy]
      have ih := sIns_filter htrans p x ys hys
      cases hpy : p y
      · simp [List.filter_cons, hpy, ih]
      · cases hpx : p x
        · simp [List.filter_cons, hpy, hpx, ih]
        · simp only [List.filter_cons, hpy, hpx, ih, if_pos rfl]
          simp only [sIns]
          simp [hxy]

lemma stableSortBy_filter (htot : ∀ a b, le a b = true ∨ le b a = true)
    (htrans : ∀ a b c, le a b = true → le b c = true → le a c = true)
    (p : α → Bool) : ∀ l : List α,
    stableSortBy le (l.filter p) = (stableSortBy le l).filter p
  | [] => rfl
  | x :: xs => by
    have ih := stableSortBy_filter htot htrans p xs
    have hf := sIns_filter le htrans p x _ (stableSortBy_sorted le htot htrans xs)
    cases hpx : p x
    · simp [List.filter_cons, hpx, stableSortBy, ih, hf]
    · simp [List.filter_cons, hpx, stableSortBy, ih, hf]

end SortLemmas

/-! ## Timestamp-sort facts -/

lemma recTsLe_total (a b : Rec) : recTsLe a b = true ∨ recTsLe b a = true := strLe_total _ _

lemma recTsLe_trans (a b c : Rec) :
    recTsLe a b = true → recTsLe b c = true → recTsLe a c = true := strLe_trans

lemma sortByTs_perm (l : List Rec) : (sortByTs l).Perm l := stableSortBy_perm _ l

lemma sortByTs_sorted (l : List Rec) :
    (sortByTs l).Pairwise (fun a b => recTsLe a b = true) :=
  stableSortBy_sorted _ recTsLe_total recTsLe_trans l

lemma sortByTs_of_sorted {l : List Rec} (h : l.Pairwise (fun a b => recTsLe a b = true)) :
    sortByTs l = l := stableSortBy_of_sorted _ h

lemma sortByTs_idem (l : List Rec) : sortByTs (sortByTs l) = sortByTs l :=
  sortByTs_of_sorted (sortByTs_sorted l)

lemma sortByTs_filter (p : Rec → Bool) (l : List Rec) :
    sortByTs (l.filter p) = (sortByTs l).filter p :=
  stableSortBy_filter _ recTsLe_total recTsLe_trans p l

/-- Strict timestamp comparison used for the determinism argument. -/
def recTsLt (a b : Rec) : Prop := chLt a.timestamp.data b.timestamp.data = true

lemma recTsLt_of_le_of_ne {a b : Rec} (hle : recTsLe a b = true)
    (hne : a.timestamp ≠ b.timestamp) : recTsLt a b := by
  simp only [recTsLe, strLe, Bool.not_eq_true'] at hle
  cases h : chLt a.timestamp.data b.timestamp.data
  · exact absurd (String.ext (chLt_conn _ _ h hle)) hne
  · exact h

/-- Two orderings of the same records sort identically when their
timestamps are pairwise distinct. -/
lemma sortByTs_eq_of_perm {l1 l2 : List Rec} (h : l1.Perm l2)
    (hnd : l1.Pairwise (fun a b => a.timestamp ≠ b.timestamp)) : sortByTs l1 = sortByTs l2 := by
  haveI : IsAntisymm Rec recTsLt :=
    ⟨fun a b h1 h2 => absurd h2 (by simp [recTsLt, chLt_asymm _ _ h1])⟩
  have hperm : (sortByTs l1).Perm (sortByTs l2) :=
    (sortByTs_perm l1).trans (h.trans (sortByTs_perm l2).symm)
  have hnd1 : (sortByTs l1).Pairwise (fun a b => a.timestamp ≠ b.timestamp) :=
    ((sortByTs_perm l1).pairwise_iff (fun hx => hx ∘ Eq.symm)).mpr hnd
  have hnd2 : (sortByTs l2).Pairwise (fun a b => a.timestamp ≠ b.timestamp) :=
    ((sortByTs_perm l2).pairwise_iff (fun hx => hx ∘ Eq.symm)).mpr
      ((h.pairwise_iff (fun hx => hx ∘ Eq.symm)).mp hnd)
  have hs1 : (sortByTs l1).Pairwise recTsLt :=
    ((sortByTs_sorted l1).and hnd1).imp (fun hab => recTsLt_of_le_of_ne hab.1 hab.2)
  have hs2 : (sortByTs l2).Pairwise recTsLt :=
    ((sortByTs_sorted l2).and hnd2).imp (fun hab => recTsLt_of_le_of_ne hab.1 hab.2)
  exact List.eq_of_perm_of_sorted hperm hs1 hs2

/-! ## Replay lemmas -/

lemma replayRows_fst : ∀ (l : List Rec) (p : Pos) (i : ℕ),
    (replayRows p i l).1 = l.foldl applyRec p
  | [], _, _ => rfl
  | r :: rest, p, i => by
    simp only [replayRows, List.foldl_cons]
    exact replayRows_fst rest (applyRec p r) (i + 1)

lemma replayRows_map_idx : ∀ (l : List Rec) (p : Pos) (i : ℕ),
    ((replayRows p i l).2).map Entry.idx = List.range' i l.length
  | [], _, _ => rfl
  | r :: rest, p, i => by
    simp only [replayRows, List.map_cons, List.length_cons, List.range'_succ]
    rw [replayRows_map_idx rest (applyRec p r) (i + 1)]

lemma replayRows_length (l : List Rec) (p : Pos) (i : ℕ) :
    ((replayRows p i l).2).length = l.length := by
  have := congrArg List.length (replayRows_map_idx l p i)
  simpa using this

lemma applyRec_other (p : Pos) (r : Rec) (h1 : r.type ≠ "BUY") (h2 : r.type ≠ "SELL") :
    applyRec p r = p := by
  simp [applyRec, h1, h2]

lemma applyRec_buy_qty (p : Pos) (r : Rec) (h1 : r.type = "BUY") :
    (applyRec p r).qty = p.qty + r.qty := by
  simp only [applyRec, h1, if_pos rfl]
  split_ifs <;> rfl

lemma applyRec_sell_qty_clamp (p : Pos) (r : Rec) (h1 : r.type ≠ "BUY") (h2 : r.type = "SELL")
    (h3 : p.qty - r.qty ≤ 0) : (applyRec p r).qty = 0 := by
  simp [applyRec, h1, h2, h3]

lemma applyRec_sell_qty_pos (p : Pos) (r : Rec) (h1 : r.type ≠ "BUY") (h2 : r.type = "SELL")
    (h3 : ¬ p.qty - r.qty ≤ 0) : (applyRec p r).qty = p.qty - r.qty := by
  simp [applyRec, h1, h2, h3]

lemma applyRec_qty_nonneg (p : Pos) (r : Rec) (hp : 0 ≤ p.qty) (hr : 0 ≤ r.qty) :
    0 ≤ (applyRec p r).qty := by
  by_cases h1 : r.type = "BUY"
  · rw [applyRec_buy_qty p r h1]
    linarith
  · by_cases h2 : r.type = "SELL"
    · by_cases h3 : p.qty - r.qty ≤ 0
      · rw [applyRec_sell_qty_clamp p r h1 h2 h3]
      · rw [applyRec_sell_qty_pos p r h1 h2 h3]
        linarith
    · rw [applyRec_other p r h1 h2]
      exact hp

lemma foldl_applyRec_qty_nonneg : ∀ (l : List Rec) (p : Pos), 0 ≤ p.qty →
    (∀ r ∈ l, 0 ≤ r.qty) → 0 ≤ (l.foldl applyRec p).qty
  | [], p, hp, _ => hp
  | r :: rest, p, hp, hl => by
    simp only [List.foldl_cons]
    exact foldl_applyRec_qty_nonneg rest (applyRec p r)
      (applyRec_qty_nonneg p r hp (hl r (List.mem_cons_self r rest)))
      (fun x hx => hl x (List.mem_cons_of_mem r hx))

lemma replayRows_afterQty_nonneg : ∀ (l : List Rec) (p : Pos) (i : ℕ), 0 ≤ p.qty →
    (∀ r ∈ l, 0 ≤ r.qty) → ∀ e ∈ (replayRows p i l).2, 0 ≤ e.afterQty
  | [], _, _, _, _, e, he => absurd he (List.not_mem_nil e)
  | r :: rest, p, i, hp, hl, e, he => by
    simp only [replayRows, List.mem_cons] at he
    have hq : 0 ≤ (applyRec p r).qty :=
      applyRec_qty_nonneg p r hp (hl r (List.mem_cons_self r rest))
    rcases he with he | he
    · rw [he]
      exact hq
    · exact replayRows_afterQty_nonneg rest (applyRec p r) (i + 1) hq
        (fun x hx => hl x (List.mem_cons_of_mem r hx)) e he

lemma applyRec_sell_clamp (p : Pos) (r : Rec) (h : r.type = "SELL")
    (h2 : p.qty - r.qty ≤ 0) : (applyRec p r).qty = 0 ∧ (applyRec p r).avg = 0 := by
  have hns : ¬ r.type = "BUY" := by simp [h]
  simp [applyRec, h, hns, h2]

/-! ## Holdings-map lemmas -/

lemma hStep_pos_nonneg : ∀ (acc : List (String × HEnt)) (r : Rec),
    (∀ e ∈ acc, 0 ≤ e.2.pos.qty) → 0 ≤ r.qty → ∀ e ∈ hStep acc r, 0 ≤ e.2.pos.qty
  | [], r, _, hr, e, he => by
    simp only [hStep, List.mem_singleton] at he
    subst he
    exact applyRec_qty_nonneg Pos.init r (le_refl 0) hr
  | (k', v) :: t, r, hacc, hr, e, he => by
    simp only [hStep] at he
    by_cases hk : k' = recKey r
    · rw [if_pos hk] at he
      rcases List.mem_cons.mp he with he | he
      · subst he
        exact applyRec_qty_nonneg v.pos r (hacc (k', v) (List.mem_cons_self _ _)) hr
      · exact hacc e (List.mem_cons_of_mem _ he)
    · rw [if_neg hk] at he
      rcases List.mem_cons.mp he with he | he
      · subst he
        exact hacc _ (List.mem_cons_self _ _)
      · exact hStep_pos_nonneg t r (fun x hx => hacc x (List.mem_cons_of_mem _ hx)) hr e he

lemma hFold_pos_nonneg : ∀ (l : List Rec) (acc : List (String × HEnt)),
    (∀ e ∈ acc, 0 ≤ e.2.pos.qty) → (∀ r ∈ l, 0 ≤ r.qty) →
    ∀ e ∈ hFold acc l, 0 ≤ e.2.pos.qty
  | [], _, hacc, _, e, he => hacc e he
  | r :: rest, acc, hacc, hl, e, he => by
    simp only [hFold] at he
    exact hFold_pos_nonneg rest (hStep acc r)
      (hStep_pos_nonneg acc r hacc (hl r (List.mem_cons_self r rest)))
      (fun x hx => hl x (List.mem_cons_of_mem r hx)) e he

/-! ## Claim C5: average-cost correctness of a BUY step -/

/-- C5: one replay step on a BUY of quantity `q > 0` at price `px` with fee
`f`, from a prior position `(qty, avg)` with `qty ≥ 0`, yields holding
`qty + q` and average cost `(qty*avg + q*px + f) / (qty + q)` exactly in
the exact-arithmetic model (hence within the spec's 1e-9 float epsilon),
with the realized P&L untouched. -/
theorem C5_buy_average_cost (p : Pos) (r : Rec) (hside : r.type = "BUY")
    (hq0 : 0 ≤ p.qty) (hq : 0 < r.qty) :
    applyRec p r =
      ⟨p.qty + r.qty, (p.qty * p.avg + r.qty * r.price + r.fee) / (p.qty + r.qty), p.realized⟩ := by
  have hpos : 0 < p.qty + r.qty := by linarith
  simp [applyRec, hside, hpos]

/-- Witness for C5: the spec's own example, `BUY 100 @ 586 fee 20` from an
empty position gives holding 100 at average 586.2 = 2931/5. -/
theorem C5_buy_average_cost_witness :
    applyRec ⟨0, 0, 0⟩ ⟨some "a", "2024-01-01 10:00:00", some "TW", "2330", "BUY", 100, 586, 20⟩
      = ⟨100, 2931 / 5, 0⟩ := by
  rw [C5_buy_average_cost _ _ rfl (le_refl 0) (by decide)]
  decide

/-! ## Claim C10: unknown trade types are frame-neutral but still emitted -/

/-- C10: a record whose `type` is neither exactly "BUY" nor exactly "SELL"
(e.g. a lowercase side from an imported JSON document) leaves the replay
position unchanged, yet `buildLogForOne` still emits one timeline entry per
record - the timeline has exactly one entry per (filtered) record and its
1-based indices enumerate `1, ..., n`. -/
theorem C10_unknown_side_frame (p : Pos) (r : Rec) (led : Ledger) (m : Option String) (s : String)
    (h1 : r.type ≠ "BUY") (h2 : r.type ≠ "SELL") :
    applyRec p r = p
    ∧ (buildLogForOne led m s).rows.length = (led.lots.filter (matchesKey m s)).length
    ∧ (buildLogForOne led m s).rows.map Entry.idx
        = List.range' 1 (led.lots.filter (matchesKey m s)).length := by
  refine ⟨applyRec_other p r h1 h2, ?_, ?_⟩
  · simp only [buildLogForOne]
    rw [replayRows_length]
    exact (sortByTs_perm _).length_eq
  · simp only [buildLogForOne]
    rw [replayRows_map_idx]
    rw [(sortByTs_perm _).length_eq]

/-- Witness for C10: a ledger holding a BUY and a lowercase-`"sell"` record;
the unknown-type step is the identity and the timeline still has indices
`[1, 2]`. -/
theorem C10_unknown_side_frame_witness :
    applyRec ⟨3, 5, 7⟩ ⟨some "b", "2024-01-02 10:00:00", some "TW", "2330", "sell", 1, 2, 0⟩
        = ⟨3, 5, 7⟩
    ∧ (buildLogForOne
        ⟨1, [⟨some "a", "2024-01-01 10:00:00", some "TW", "2330", "BUY", 100, 586, 20⟩,
             ⟨some "b", "2024-01-02 10:00:00", some "TW", "2330", "sell", 1, 2, 0⟩], none⟩
        (some "TW") "2330").rows.length
      = ((⟨1, [⟨some "a", "2024-01-01 10:00:00", some "TW", "2330", "BUY", 100, 586, 20⟩,
               ⟨some "b", "2024-01-02 10:00:00", some "TW", "2330", "sell", 1, 2, 0⟩], none⟩ :
          Ledger).lots.filter (matchesKey (some "TW") "2330")).length
    ∧ (buildLogForOne
        ⟨1, [⟨some "a", "2024-01-01 10:00:00", some "TW", "2330", "BUY", 100, 586, 20⟩,
             ⟨some "b", "2024-01-02 10:00:00", some "TW", "2330", "sell", 1, 2, 0⟩], none⟩
        (some "TW") "2330").rows.map Entry.idx
      = List.range' 1 ((⟨1, [⟨some "a", "2024-01-01 10:00:00", some "TW", "2330", "BUY", 100, 586, 20⟩,
               ⟨some "b", "2024-01-02 10:00:00", some "TW", "2330", "sell", 1, 2, 0⟩], none⟩ :
          Ledger).lots.filter (matchesKey (some "TW") "2330")).length :=
  C10_unknown_side_frame ⟨3, 5, 7⟩ _ _ (some "TW") "2330" (by decide) (by decide)

/-! ## Claim C4: non-negativity invariant and the sell clamp -/

/-- C4: replaying any list of trade records (quantities are non-negative by
the data model) keeps the holding quantity non-negative after every event -
in the `buildLogForOne` timeline, in its terminal holding, and in every
`computeHoldings` position - and whenever a SELL would reduce the running
quantity to `<= 0` the step clamps the quantity to exactly 0 and resets the
average cost to 0 (the step function shared verbatim by `buildLogForOne`
and `computeHoldings`). -/
theorem C4_nonneg_and_clamp (led : Ledger) (m : Option String) (s : String)
    (hq : ∀ r ∈ led.lots, 0 ≤ r.qty) :
    (∀ e ∈ (buildLogForOne led m s).rows, 0 ≤ e.afterQty)
    ∧ 0 ≤ (buildLogForOne led m s).holdingQty
    ∧ (∀ p ∈ computeHoldings led, 0 ≤ p.pos.qty)
    ∧ (∀ (p : Pos) (r : Rec), r.type = "SELL" → p.qty - r.qty ≤ 0 →
        (applyRec p r).qty = 0 ∧ (applyRec p r).avg = 0) := by
  have hqf : ∀ r ∈ sortByTs (led.lots.filter (matchesKey m s)), 0 ≤ r.qty := by
    intro r hr
    exact hq r (List.mem_filter.mp ((sortByTs_perm _).mem_iff.mp hr)).1
  refine ⟨?_, ?_, ?_, fun p r => applyRec_sell_clamp p r⟩
  · intro e he
    simp only [buildLogForOne] at he
    exact replayRows_afterQty_nonneg _ Pos.init 1 (le_refl 0) hqf e he
  · have hrw : (buildLogForOne led m s).holdingQty
        = ((sortByTs (led.lots.filter (matchesKey m s))).foldl applyRec Pos.init).qty := by
      simp only [buildLogForOne]
      rw [replayRows_fst]
    rw [hrw]
    exact foldl_applyRec_qty_nonneg _ _ (le_refl 0) hqf
  · intro p hp
    have hp1 : p ∈ (hFold [] (sortByTs led.lots)).map Prod.snd := (List.mem_filter.mp hp).1
    rcases List.mem_map.mp hp1 with ⟨kv, hkv, hkv2⟩
    rw [← hkv2]
    refine hFold_pos_nonneg (sortByTs led.lots) [] (by intro e he; cases he) ?_ kv hkv
    intro r hr
    exact hq r ((sortByTs_perm _).mem_iff.mp hr)

/-- Witness for C4: the spec's example instrument (BUY 100, SELL 40), whose
timeline, terminal holding and holdings rows are all non-negative. -/
theorem C4_nonneg_and_clamp_witness :
    (∀ e ∈ (buildLogForOne
        ⟨1, [⟨some "a", "2024-01-01 10:00:00", some "TW", "2330", "BUY", 100, 586, 20⟩,
             ⟨some "b", "2024-01-02 10:00:00", some "TW", "2330", "SELL", 40, 600, 5⟩], none⟩
        (some "TW") "2330").rows, 0 ≤ e.afterQty)
    ∧ 0 ≤ (buildLogForOne
        ⟨1, [⟨some "a", "2024-01-01 10:00:00", some "TW", "2330", "BUY", 100, 586, 20⟩,
             ⟨some "b", "2024-01-02 10:00:00", some "TW", "2330", "SELL", 40, 600, 5⟩], none⟩
        (some "TW") "2330").holdingQty
    ∧ (∀ p ∈ computeHoldings
        ⟨1, [⟨some "a", "2024-01-01 10:00:00", some "TW", "2330", "BUY", 100, 586, 20⟩,
             ⟨some "b", "2024-01-02 10:00:00", some "TW", "2330", "SELL", 40, 600, 5⟩], none⟩,
        0 ≤ p.pos.qty)
    ∧ (∀ (p : Pos) (r : Rec), r.type = "SELL" → p.qty - r.qty ≤ 0 →
        (applyRec p r).qty = 0 ∧ (applyRec p r).avg = 0) :=
  C4_nonneg_and_clamp _ (some "TW") "2330" (by decide)

/-! ## Claim C3: replay determinism under input reordering -/

/-- Counterexample to C3 as stated: two orderings of the same two-record
multiset (a BUY and a SELL sharing one timestamp) produce different
`buildLogForOne` output, because the stable sort breaks the timestamp tie
by input order, so the SELL is replayed either after or before the BUY. -/
theorem C3_counterexample :
    (Ledger.mk 1 [⟨some "a", "2024-01-01 10:00:00", some "TW", "X", "BUY", 10, 5, 0⟩,
                  ⟨some "b", "2024-01-01 10:00:00", some "TW", "X", "SELL", 4, 6, 0⟩] none).lots.Perm
      (Ledger.mk 1 [⟨some "b", "2024-01-01 10:00:00", some "TW", "X", "SELL", 4, 6, 0⟩,
                    ⟨some "a", "2024-01-01 10:00:00", some "TW", "X", "BUY", 10, 5, 0⟩] none).lots
    ∧ buildLogForOne
        ⟨1, [⟨some "a", "2024-01-01 10:00:00", some "TW", "X", "BUY", 10, 5, 0⟩,
             ⟨some "b", "2024-01-01 10:00:00", some "TW", "X", "SELL", 4, 6, 0⟩], none⟩
        (some "TW") "X"
      ≠ buildLogForOne
        ⟨1, [⟨some "b", "2024-01-01 10:00:00", some "TW", "X", "SELL", 4, 6, 0⟩,
             ⟨some "a", "2024-01-01 10:00:00", some "TW", "X", "BUY", 10, 5, 0⟩], none⟩
        (some "TW") "X" := by
  constructor
  · decide
  · decide

/-- C3 (amended): for a fixed multiset of records, `buildLogForOne` is
independent of the input array order provided the instrument's timestamps
are pairwise distinct; with tied timestamps the stable sort's tie-break by
original order makes the output depend on the input order. -/
theorem C3_replay_determinism (L1 L2 : Ledger) (m : Option String) (s : String)
    (hperm : L1.lots.Perm L2.lots)
    (hnd : (L1.lots.filter (matchesKey m s)).Pairwise (fun a b => a.timestamp ≠ b.timestamp)) :
    buildLogForOne L1 m s = buildLogForOne L2 m s := by
  have hsort : sortByTs (L1.lots.filter (matchesKey m s))
      = sortByTs (L2.lots.filter (matchesKey m s)) :=
    sortByTs_eq_of_perm (hperm.filter _) hnd
  simp only [buildLogForOne, hsort]

/-- Witness for C3 (amended): the spec example's two records in either
order replay identically (distinct timestamps). -/
theorem C3_replay_determinism_witness :
    buildLogForOne
        ⟨1, [⟨some "a", "2024-01-01 10:00:00", some "TW", "2330", "BUY", 100, 586, 20⟩,
             ⟨some "b", "2024-01-02 10:00:00", some "TW", "2330", "SELL", 40, 600, 5⟩], none⟩
        (some "TW") "2330"
      = buildLogForOne
        ⟨1, [⟨some "b", "2024-01-02 10:00:00", some "TW", "2330", "SELL", 40, 600, 5⟩,
             ⟨some "a", "2024-01-01 10:00:00", some "TW", "2330", "BUY", 100, 586, 20⟩], none⟩
        (some "TW") "2330" :=
  C3_replay_determinism _ _ (some "TW") "2330" (by decide) (by decide)

/-! ## Claim C1: oversell rejection on insert and edit -/

/-- Modelled from the spec's words ("the holding quantity immediately
preceding it in timestamp order"): replay the instrument's records whose
timestamp is at most `ts` (a newly appended record sorts after existing
equal timestamps, because the stable sort keeps the later array element
last) and read off the holding.  The code's insertion guard is compared
against this. -/
def holdingBefore (led : Ledger) (market : Option String) (symbol : String) (ts : String) : ℚ :=
  (((sortByTs (led.lots.filter (matchesKey market symbol))).filter
    (fun r => strLe r.timestamp ts)).foldl applyRec Pos.init).qty

/-- The net holding movement of one record as the validator counts it:
BUY adds the quantity, SELL subtracts it, any other type contributes 0. -/
def holdDelta (r : Rec) : ℚ :=
  if r.type = "BUY" then r.qty else if r.type = "SELL" then -r.qty else 0

/-- The validator's unclamped running holding over a prefix of records. -/
def runHold (l : List Rec) : ℚ := (l.map holdDelta).sum

lemma runHold_cons (x : Rec) (l : List Rec) : runHold (x :: l) = holdDelta x + runHold l := by
  simp [runHold]

/-- Quantify over the three-way splits of a cons. -/
lemma splits_cons_iff {x : Rec} {rest : List Rec} (P : List Rec → Rec → List Rec → Prop) :
    (∀ pre r post, x :: rest = pre ++ r :: post → P pre r post) ↔
      (P [] x rest ∧ ∀ pre r post, rest = pre ++ r :: post → P (x :: pre) r post) := by
  constructor
  · intro hall
    exact ⟨hall [] x rest rfl, fun pre r post heq => hall (x :: pre) r post (by rw [heq]; rfl)⟩
  · rintro ⟨h0, h1⟩ pre r post heq
    cases pre with
    | nil =>
      have hx : x = r ∧ rest = post := by simpa using heq
      rcases hx with ⟨rfl, rfl⟩
      exact h0
    | cons y pre' =>
      have hx : x = y ∧ rest = pre' ++ r :: post := by simpa using heq
      rcases hx with ⟨rfl, h2⟩
      exact h1 pre' r post h2

/-- The `validateNoOversell` loop accepts iff every record in the sequence
has positive quantity and every SELL's quantity is at most the unclamped
running holding (from the start value `h`) plus the 1e-9 epsilon. -/
lemma vnoLoop_none_iff : ∀ (l : List Rec) (h : ℚ),
    vnoLoop h l = none ↔
      ∀ pre r post, l = pre ++ r :: post →
        0 < r.qty ∧ (r.type = "SELL" → r.qty ≤ h + runHold pre + (1 : ℚ) / 1000000000)
  | [], h => by
    simp only [vnoLoop]
    constructor
    · intro _ pre r post heq
      cases pre <;> simp at heq
    · intro _
      trivial
  | x :: rest, h => by
    rw [splits_cons_iff]
    simp only [vnoLoop]
    by_cases hq : x.qty ≤ 0
    · rw [if_pos hq]
      apply iff_of_false (by simp)
      rintro ⟨⟨h0, _⟩, _⟩
      linarith
    · rw [if_neg hq]
      have hq' : 0 < x.qty := not_le.mp hq
      by_cases hb : x.type = "BUY"
      · rw [if_pos hb]
        rw [vnoLoop_none_iff rest (h + x.qty)]
        constructor
        · intro hall
          refine ⟨⟨hq', fun hsell => absurd (hb.symm.trans hsell) (by decide)⟩, ?_⟩
          intro pre r post heq
          rcases hall pre r post heq with ⟨h1, h2⟩
          refine ⟨h1, fun hsell => ?_⟩
          have := h2 hsell
          rw [runHold_cons, holdDelta, if_pos hb]
          linarith
        · rintro ⟨_, hall⟩ pre r post heq
          rcases hall pre r post heq with ⟨h1, h2⟩
          refine ⟨h1, fun hsell => ?_⟩
          have := h2 hsell
          rw [runHold_cons, holdDelta, if_pos hb] at this
          linarith
      · rw [if_neg hb]
        by_cases hs : x.type = "SELL"
        · rw [if_pos hs]
          by_cases hover : h + (1 : ℚ) / 1000000000 < x.qty
          · rw [if_pos hover]
            apply iff_of_false (by simp)
            rintro ⟨⟨_, h0⟩, _⟩
            have := h0 hs
            simp only [runHold, List.map_nil, List.sum_nil, add_zero] at this
            linarith
          · rw [if_neg hover]
            rw [vnoLoop_none_iff rest (h - x.qty)]
            constructor
            · intro hall
              refine ⟨⟨hq', fun _ => by
                simp only [runHold, List.map_nil, List.sum_nil, add_zero]
                linarith⟩, ?_⟩
              intro pre r post heq
              rcases hall pre r post heq with ⟨h1, h2⟩
              refine ⟨h1, fun hsell => ?_⟩
              have := h2 hsell
              rw [runHold_cons, holdDelta, if_neg hb, if_pos hs]
              linarith
            · rintro ⟨_, hall⟩ pre r post heq
              rcases hall pre r post heq with ⟨h1, h2⟩
              refine ⟨h1, fun hsell => ?_⟩
              have := h2 hsell
              rw [runHold_cons, holdDelta, if_neg hb, if_pos hs] at this
              linarith
        · rw [if_neg hs]
          rw [vnoLoop_none_iff rest h]
          constructor
          · intro hall
            refine ⟨⟨hq', fun hsell => absurd hsell hs⟩, ?_⟩
            intro pre r post heq
            rcases hall pre r post heq with ⟨h1, h2⟩
            refine ⟨h1, fun hsell => ?_⟩
            have := h2 hsell
            rw [runHold_cons, holdDelta, if_neg hb, if_neg hs]
            linarith
          · rintro ⟨_, hall⟩ pre r post heq
            rcases hall pre r post heq with ⟨h1, h2⟩
            refine ⟨h1, fun hsell => ?_⟩
            have := h2 hsell
            rw [runHold_cons, holdDelta, if_neg hb, if_neg hs] at this
            linarith

/-- Counterexample to C1 as stated: with holdings BUY 50 (Jan 1) and BUY 50
(Jan 3), a back-dated SELL of 80 on Jan 2 exceeds the holding immediately
preceding it in timestamp order (50), yet `addTrade` accepts and appends it
- its guard compares against the terminal holding (100), not the holding at
the insertion point. -/
theorem C1_counterexample :
    (80 : ℚ) > holdingBefore
        ⟨1, [⟨some "a", "2024-01-01 10:00:00", some "TW", "X", "BUY", 50, 10, 0⟩,
             ⟨some "b", "2024-01-03 10:00:00", some "TW", "X", "BUY", 50, 10, 0⟩], none⟩
        (some "TW") "X" "2024-01-02 10:00:00"
    ∧ (addTrade
        ⟨⟨1, [⟨some "a", "2024-01-01 10:00:00", some "TW", "X", "BUY", 50, 10, 0⟩,
              ⟨some "b", "2024-01-03 10:00:00", some "TW", "X", "BUY", 50, 10, 0⟩], none⟩,
          ⟨1, [⟨some "a", "2024-01-01 10:00:00", some "TW", "X", "BUY", 50, 10, 0⟩,
              ⟨some "b", "2024-01-03 10:00:00", some "TW", "X", "BUY", 50, 10, 0⟩], none⟩⟩
        "TW" "SELL" "X" "2024-01-02" "10:00" "80" "5" "" "nid" "now").2 = none
    ∧ (addTrade
        ⟨⟨1, [⟨some "a", "2024-01-01 10:00:00", some "TW", "X", "BUY", 50, 10, 0⟩,
              ⟨some "b", "2024-01-03 10:00:00", some "TW", "X", "BUY", 50, 10, 0⟩], none⟩,
          ⟨1, [⟨some "a", "2024-01-01 10:00:00", some "TW", "X", "BUY", 50, 10, 0⟩,
              ⟨some "b", "2024-01-03 10:00:00", some "TW", "X", "BUY", 50, 10, 0⟩], none⟩⟩
        "TW" "SELL" "X" "2024-01-02" "10:00" "80" "5" "" "nid" "now").1.mem.lots.length = 3 := by
  refine ⟨by decide, by decide, by decide⟩

/-- C1 (amended): the insertion guard of `addTrade` rejects a valid SELL iff
its quantity exceeds the instrument's *terminal* holding (the holding after
replaying all existing records) - not the holding immediately preceding the
new timestamp - while the edit path's `validateNoOversell` accepts iff
every record of the instrument has positive quantity and every SELL is at
most the unclamped running holding plus 1e-9 at its position in timestamp
order.  A back-dated SELL that exceeds its preceding holding but not the
terminal holding is therefore accepted by `addTrade` (see the
counterexample). -/
theorem C1_oversell_guards (st : AppState)
    (marketRaw symbolRaw dateRaw timeRaw qtyRaw priceRaw feeRaw newId now : String)
    (mk ts : String) (qty price : ℚ)
    (hm : normalizeMarket marketRaw = some mk)
    (hsym : normalizeSymbol (some mk) symbolRaw ≠ "")
    (hts : parseTimestamp dateRaw timeRaw = some ts)
    (hq : jsNum qtyRaw = some qty) (hq0 : 0 < qty)
    (hp : jsNum priceRaw = some price) (hp0 : 0 < price)
    (led : Ledger) (m : Option String) (s : String) :
    ((addTrade st marketRaw "SELL" symbolRaw dateRaw timeRaw qtyRaw priceRaw feeRaw newId now).2 = none
        ↔ qty ≤ (buildLogForOne st.mem (some mk) (normalizeSymbol (some mk) symbolRaw)).holdingQty)
    ∧ (validateNoOversell led m s = none ↔
        ∀ pre r post, sortByTs (led.lots.filter (matchesKey m s)) = pre ++ r :: post →
          0 < r.qty ∧ (r.type = "SELL" → r.qty ≤ runHold pre + (1 : ℚ) / 1000000000)) := by
  constructor
  · simp only [addTrade, hm, hts, hq, hp]
    rw [if_neg (by simp), if_neg hsym, if_neg (not_le.mpr hq0), if_neg (not_le.mpr hp0)]
    by_cases hlt : (buildLogForOne st.mem (some mk) (normalizeSymbol (some mk) symbolRaw)).holdingQty < qty
    · rw [if_pos (by simp [hlt])]
      simp [not_le.mpr hlt]
    · rw [if_neg (by simp [hlt])]
      simp [not_lt.mp hlt]
  · rw [validateNoOversell, vnoLoop_none_iff]
    constructor
    · intro hall pre r post heq
      rcases hall pre r post heq with ⟨h1, h2⟩
      exact ⟨h1, fun hs => by have := h2 hs; linarith⟩
    · intro hall pre r post heq
      rcases hall pre r post heq with ⟨h1, h2⟩
      exact ⟨h1, fun hs => by have := h2 hs; linarith⟩

/-- Witness for C1 (amended), at the spec example: a SELL of 60 with 60
held is accepted by the insert guard, and the instrument validates. -/
theorem C1_oversell_guards_witness :
    ((addTrade
        ⟨⟨1, [⟨some "a", "2024-01-01 10:00:00", some "TW", "2330", "BUY", 100, 586, 20⟩,
              ⟨some "b", "2024-01-02 10:00:00", some "TW", "2330", "SELL", 40, 600, 5⟩], none⟩,
          ⟨1, [⟨some "a", "2024-01-01 10:00:00", some "TW", "2330", "BUY", 100, 586, 20⟩,
              ⟨some "b", "2024-01-02 10:00:00", some "TW", "2330", "SELL", 40, 600, 5⟩], none⟩⟩
        "TW" "SELL" "2330" "2024-01-03" "10:00" "60" "600" "" "nid" "now").2 = none
        ↔ (60 : ℚ) ≤ (buildLogForOne
            ⟨1, [⟨some "a", "2024-01-01 10:00:00", some "TW", "2330", "BUY", 100, 586, 20⟩,
                 ⟨some "b", "2024-01-02 10:00:00", some "TW", "2330", "SELL", 40, 600, 5⟩], none⟩
            (some "TW") (normalizeSymbol (some "TW") "2330")).holdingQty)
    ∧ (validateNoOversell
          ⟨1, [⟨some "a", "2024-01-01 10:00:00", some "TW", "2330", "BUY", 100, 586, 20⟩,
               ⟨some "b", "2024-01-02 10:00:00", some "TW", "2330", "SELL", 40, 600, 5⟩], none⟩
          (some "TW") "2330" = none ↔
        ∀ pre r post, sortByTs ((⟨1, [⟨some "a", "2024-01-01 10:00:00", some "TW", "2330", "BUY", 100, 586, 20⟩,
               ⟨some "b", "2024-01-02 10:00:00", some "TW", "2330", "SELL", 40, 600, 5⟩], none⟩ :
            Ledger).lots.filter (matchesKey (some "TW") "2330")) = pre ++ r :: post →
          0 < r.qty ∧ (r.type = "SELL" → r.qty ≤ runHold pre + (1 : ℚ) / 1000000000)) :=
  C1_oversell_guards _ "TW" "2330" "2024-01-03" "10:00" "60" "600" "" "nid" "now"
    "TW" "2024-01-03 10:00:00" 60 600 (by decide) (by decide) (by decide) (by decide)
    (by decide) (by decide) (by decide) _ (some "TW") "2330"

/-! ## Claim C7: a rejected single-record mutation leaves the ledger alone -/

/-- `editSave` either rejects leaving the state untouched, or commits one
saved ledger to both memory and storage. -/
lemma editSave_cases (st : AppState) (tid d t q p f now : String) :
    (∃ e, editSave st tid d t q p f now = (st, some e)) ∨
    (∃ L, editSave st tid d t q p f now = (⟨L, L⟩, none)) := by
  simp only [editSave]
  repeat' split
  all_goals first
    | exact Or.inl ⟨_, rfl⟩
    | exact Or.inr ⟨_, rfl⟩

/-- `addTrade` either rejects leaving the state untouched, or commits one
saved ledger to both memory and storage. -/
lemma addTrade_cases (st : AppState) (mr sr syr dr tr qr pr fr nid anow : String) :
    (∃ e, addTrade st mr sr syr dr tr qr pr fr nid anow = (st, some e)) ∨
    (∃ L, addTrade st mr sr syr dr tr qr pr fr nid anow = (⟨L, L⟩, none)) := by
  simp only [addTrade]
  repeat' split
  all_goals first
    | exact Or.inl ⟨_, rfl⟩
    | exact Or.inr ⟨_, rfl⟩

/-- C7: any rejected edit-save (in particular one failing the oversell
validation) aborts just that mutation - the in-memory ledger and the
persisted document are exactly as before; likewise any rejected insert
(`addTrade` rejects before appending); and a successful edit commits the
same saved document to memory and storage (the edit validated a freshly
reloaded copy of the persisted ledger, never a stale one). -/
theorem C7_reject_leaves_state (st : AppState) (tid d t q p f now : String)
    (mr sr syr dr tr qr pr fr nid anow : String) :
    (∀ e, (editSave st tid d t q p f now).2 = some e →
        (editSave st tid d t q p f now).1 = st)
    ∧ (∀ e, (addTrade st mr sr syr dr tr qr pr fr nid anow).2 = some e →
        (addTrade st mr sr syr dr tr qr pr fr nid anow).1 = st)
    ∧ ((editSave st tid d t q p f now).2 = none →
        (editSave st tid d t q p f now).1.mem = (editSave st tid d t q p f now).1.store) := by
  refine ⟨?_, ?_, ?_⟩
  · intro e he
    rcases editSave_cases st tid d t q p f now with ⟨e', hc⟩ | ⟨L, hc⟩
    · rw [hc]
    · rw [hc] at he
      cases he
  · intro e he
    rcases addTrade_cases st mr sr syr dr tr qr pr fr nid anow with ⟨e', hc⟩ | ⟨L, hc⟩
    · rw [hc]
    · rw [hc] at he
      cases he
  · intro hn
    rcases editSave_cases st tid d t q p f now with ⟨e', hc⟩ | ⟨L, hc⟩
    · rw [hc] at hn
      cases hn
    · rw [hc]

/-- Witness for C7: an edit that back-dates the SELL of the spec example
before its BUY is rejected by the oversell validation and leaves the state
exactly as it was; an insert of SELL 80 against a terminal holding of 60 is
likewise rejected without appending; both at a concrete state. -/
theorem C7_reject_leaves_state_witness :
    (editSave
      ⟨⟨1, [⟨some "a", "2024-01-01 10:00:00", some "TW", "2330", "BUY", 100, 586, 20⟩,
            ⟨some "b", "2024-01-02 10:00:00", some "TW", "2330", "SELL", 40, 600, 5⟩], none⟩,
        ⟨1, [⟨some "a", "2024-01-01 10:00:00", some "TW", "2330", "BUY", 100, 586, 20⟩,
            ⟨some "b", "2024-01-02 10:00:00", some "TW", "2330", "SELL", 40, 600, 5⟩], none⟩⟩
      "b" "2023-12-31" "10:00" "40" "600" "5" "now").1
      = ⟨⟨1, [⟨some "a", "2024-01-01 10:00:00", some "TW", "2330", "BUY", 100, 586, 20⟩,
            ⟨some "b", "2024-01-02 10:00:00", some "TW", "2330", "SELL", 40, 600, 5⟩], none⟩,
        ⟨1, [⟨some "a", "2024-01-01 10:00:00", some "TW", "2330", "BUY", 100, 586, 20⟩,
            ⟨some "b", "2024-01-02 10:00:00", some "TW", "2330", "SELL", 40, 600, 5⟩], none⟩⟩
    ∧ (addTrade
      ⟨⟨1, [⟨some "a", "2024-01-01 10:00:00", some "TW", "2330", "BUY", 100, 586, 20⟩,
            ⟨some "b", "2024-01-02 10:00:00", some "TW", "2330", "SELL", 40, 600, 5⟩], none⟩,
        ⟨1, [⟨some "a", "2024-01-01 10:00:00", some "TW", "2330", "BUY", 100, 586, 20⟩,
            ⟨some "b", "2024-01-02 10:00:00", some "TW", "2330", "SELL", 40, 600, 5⟩], none⟩⟩
      "TW" "SELL" "2330" "2024-01-03" "10:00" "80" "600" "" "nid" "anow").1
      = ⟨⟨1, [⟨some "a", "2024-01-01 10:00:00", some "TW", "2330", "BUY", 100, 586, 20⟩,
            ⟨some "b", "2024-01-02 10:00:00", some "TW", "2330", "SELL", 40, 600, 5⟩], none⟩,
        ⟨1, [⟨some "a", "2024-01-01 10:00:00", some "TW", "2330", "BUY", 100, 586, 20⟩,
            ⟨some "b", "2024-01-02 10:00:00", some "TW", "2330", "SELL", 40, 600, 5⟩], none⟩⟩ :=
  ⟨(C7_reject_leaves_state _ "b" "2023-12-31" "10:00" "40" "600" "5" "now"
      "TW" "SELL" "2330" "2024-01-03" "10:00" "80" "600" "" "nid" "anow").1
      ("修改後會造成賣出超過當時庫存。時間：2023-12-31 10:00") (by decide),
   (C7_reject_leaves_state _ "b" "2023-12-31" "10:00" "40" "600" "5" "now"
      "TW" "SELL" "2330" "2024-01-03" "10:00" "80" "600" "" "nid" "anow").2.1
      "庫存不足，不能賣出" (by decide)⟩

/-! ## Claim C2: atomic rollback of a failing CSV batch -/

/-- Counterexample to C2 as stated: a batch whose staged merge goes negative
is rolled back and the failure reported, but the resulting ledger document
is *not* byte-for-byte identical to the pre-import state - the rollback is
re-persisted through `saveLedger`, which re-stamps `lastSaved` (the `lots`
and `version` are restored exactly). -/
theorem C2_counterexample :
    ((importCsvIntoLedger "US,AAPL,SELL,2024-01-02,,5,10," ⟨1, [], some "2024-01-01 00:00:00"⟩
        "2024-09-09 09:09:09" (fun n => "id" ++ toString n)).2.isOk = false)
    ∧ (importCsvIntoLedger "US,AAPL,SELL,2024-01-02,,5,10," ⟨1, [], some "2024-01-01 00:00:00"⟩
        "2024-09-09 09:09:09" (fun n => "id" ++ toString n)).1
      ≠ (⟨1, [], some "2024-01-01 00:00:00"⟩ : Ledger)
    ∧ (importCsvIntoLedger "US,AAPL,SELL,2024-01-02,,5,10," ⟨1, [], some "2024-01-01 00:00:00"⟩
        "2024-09-09 09:09:09" (fun n => "id" ++ toString n)).1.lots = [] := by
  refine ⟨by decide, by decide, by decide⟩

/-- C2 (amended): if the staged merge of a CSV batch would bring any
instrument's running holding below -1e-9 at any event, the import reports
failure with the scan's message and the resulting ledger (in memory and as
persisted) carries exactly the pre-import `lots` and `version` - no row of
the batch remains applied - with only the `lastSaved` stamp renewed by the
rollback's save. -/
theorem C2_negative_batch_rolls_back (text : String) (led : Ledger) (now : String)
    (ids : ℕ → String) (msg : String)
    (hrows : (parseCsv text).rows.isEmpty = false)
    (hneg : findNegativeHoldings (importMerged text led ids) = some msg) :
    importCsvIntoLedger text led now ids = (⟨led.version, led.lots, some now⟩, .error msg) := by
  simp only [importCsvIntoLedger, hrows, Bool.false_eq_true, if_false, hneg]
  rfl

/-! ## Claim C9: unrecognized market codes import as null without error -/

lemma jsTrim_data (s : String) :
    (jsTrim s).data = List.rdropWhile isWsChar (s.data.dropWhile isWsChar) := rfl

lemma jsTrim_idem (s : String) : jsTrim (jsTrim s) = jsTrim s := by
  apply String.ext
  rw [jsTrim_data, jsTrim_data]
  have hX : (List.rdropWhile isWsChar (s.data.dropWhile isWsChar)).dropWhile isWsChar
      = List.rdropWhile isWsChar (s.data.dropWhile isWsChar) := by
    rw [List.dropWhile_eq_self_iff]
    intro hl
    have hpre : List.rdropWhile isWsChar (s.data.dropWhile isWsChar)
        <+: s.data.dropWhile isWsChar := List.rdropWhile_prefix _ _
    have hlen : 0 < (s.data.dropWhile isWsChar).length :=
      lt_of_lt_of_le hl hpre.length_le
    have h0 := hpre.getElem (n := 0) hl
    rw [List.get_eq_getElem, h0]
    have hself : (s.data.dropWhile isWsChar).dropWhile isWsChar
        = s.data.dropWhile isWsChar := List.dropWhile_idempotent _ _
    have := List.dropWhile_eq_self_iff.mp hself hlen
    rw [List.get_eq_getElem] at this
    exact this
  rw [hX, List.rdropWhile_idempotent]

/-- C9: a CSV row whose market cell is non-empty after trimming but not a
recognized code (`normalizeMarket` returns null) triggers no per-row error
and no symbol-shape inference: when the rest of the row is valid it
normalizes to a candidate record whose market is null and whose symbol
keeps its case, merely trimmed (a null market never satisfies the US
uppercasing test). -/
theorem C9_unrecognized_market_is_null (hasHeader : Bool) (im : IdxMap) (row : List String)
    (side date time ts : String) (qty price fee : ℚ)
    (hmne : jsTrim (colAt hasHeader row im.market 0) ≠ "")
    (hmnull : normalizeMarket (colAt hasHeader row im.market 0) = none)
    (hsym : jsTrim (colAt hasHeader row im.symbol 1) ≠ "")
    (hside : normalizeCsvSide (colAt hasHeader row im.side 2) = some side)
    (hdate : normalizeCsvDate (colAt hasHeader row im.date 3) = some date)
    (htime : normalizeCsvTime (colAt hasHeader row im.time 4) = some time)
    (hts : parseTimestamp date time = some ts)
    (hqty : jsNum (colAt hasHeader row im.qty 5) = some qty) (hq0 : 0 < qty)
    (hpx : jsNum (colAt hasHeader row im.price 6) = some price) (hp0 : 0 < price)
    (hfee : (if jsTrim (colAt hasHeader row im.fee 7) = "" then some (0 : ℚ)
             else jsNum (colAt hasHeader row im.fee 7)) = some fee) (hf0 : 0 ≤ fee) :
    rowCheck hasHeader im row =
      .ok ⟨ts, none, jsTrim (colAt hasHeader row im.symbol 1), side, qty, price, fee⟩ := by
  simp only [rowCheck, if_neg hsym, if_pos hmne, hmnull, hside, hdate, htime, hts, hqty, hpx,
    hfee, if_neg (not_le.mpr hq0), if_neg (not_le.mpr hp0)]
  rw [if_neg (by simp [decide_eq_false (not_lt.mpr hf0)])]
  simp only [normalizeSymbol, jsTrim_idem]
  rfl

/-- Witness for C9: a no-header row with market cell "JP" produces a valid
candidate with null market and the mixed-case symbol "aBc" preserved. -/
theorem C9_unrecognized_market_is_null_witness :
    rowCheck false (csvHeaderIndexMap none) ["JP", "aBc", "BUY", "2024-01-02", "", "5", "10", ""]
      = .ok ⟨"2024-01-02 09:00:00", none, "aBc", "BUY", 5, 10, 0⟩ :=
  C9_unrecognized_market_is_null false (csvHeaderIndexMap none)
    ["JP", "aBc", "BUY", "2024-01-02", "", "5", "10", ""]
    "BUY" "2024-01-02" "09:00" "2024-01-02 09:00:00" 5 10 0
    (by decide) (by decide) (by decide) (by decide) (by decide) (by decide) (by decide)
    (by decide) (by decide) (by decide) (by decide) (by decide) (by decide)

/-- Witness for C2 (amended): the one-SELL batch on an empty ledger fails
the scan and yields exactly the rolled-back, re-stamped document. -/
theorem C2_negative_batch_rolls_back_witness :
    importCsvIntoLedger "US,AAPL,SELL,2024-01-02,,5,10," ⟨1, [], some "2024-01-01 00:00:00"⟩
        "2024-09-09 09:09:09" (fun n => "id" ++ toString n)
      = (⟨1, [], some "2024-09-09 09:09:09"⟩,
         .error ("資料不合法：AAPL 在 2024-01-02 09:00:00 賣出後庫存變成負數。請檢查 CSV 是否有少了買入或日期排序不正確。")) :=
  C2_negative_batch_rolls_back "US,AAPL,SELL,2024-01-02,,5,10," ⟨1, [], some "2024-01-01 00:00:00"⟩
    "2024-09-09 09:09:09" (fun n => "id" ++ toString n) _ (by decide) (by decide)

/-! ## Claim C6: importing the same batch twice -/

/-- The dedupe key never reads the record id. -/
lemma recDedupeKey_mkRec (i j : String) (f : RecFields) :
    recDedupeKey (mkRec i f) = recDedupeKey (mkRec j f) := rfl

section ImportLoopLemmas

variable (hh : Bool) (im : IdxMap) (ids : ℕ → String)

/-- Exhaustive description of one import-loop step. -/
lemma stepRow_cases (i : ℕ) (st : LoopSt) (row : List String) :
    (rowBlank row = true ∧ stepRow hh im ids i st row = st)
    ∨ (rowBlank row = false ∧ ∃ e, rowCheck hh im row = .error e ∧
        stepRow hh im ids i st row = { st with errors := st.errors ++ [rowErrMsg i e] })
    ∨ (rowBlank row = false ∧ ∃ f, rowCheck hh im row = .ok f ∧
        recDedupeKey (mkRec (ids st.nextId) f) ∈ st.ex ∧
        stepRow hh im ids i st row = { st with skipped := st.skipped + 1, nextId := st.nextId + 1 })
    ∨ (rowBlank row = false ∧ ∃ f, rowCheck hh im row = .ok f ∧
        recDedupeKey (mkRec (ids st.nextId) f) ∉ st.ex ∧
        stepRow hh im ids i st row =
          { st with lots := st.lots ++ [mkRec (ids st.nextId) f],
                    ex := recDedupeKey (mkRec (ids st.nextId) f) :: st.ex,
                    imported := st.imported + 1, nextId := st.nextId + 1 }) := by
  cases hb : rowBlank row
  · cases hc : rowCheck hh im row with
    | error e =>
      refine Or.inr (Or.inl ⟨rfl, e, rfl, ?_⟩)
      simp [stepRow, hb, hc]
    | ok f =>
      by_cases hk : recDedupeKey (mkRec (ids st.nextId) f) ∈ st.ex
      · refine Or.inr (Or.inr (Or.inl ⟨rfl, f, rfl, hk, ?_⟩))
        simp [stepRow, hb, hc, hk]
      · refine Or.inr (Or.inr (Or.inr ⟨rfl, f, rfl, hk, ?_⟩))
        simp [stepRow, hb, hc, hk]
  · exact Or.inl ⟨rfl, by simp [stepRow, hb]⟩

/-- The `existing` set always mirrors the dedupe keys of the staged lots. -/
lemma stepRow_exInv (i : ℕ) (st : LoopSt) (row : List String)
    (hinv : ∀ k, k ∈ st.ex ↔ k ∈ st.lots.map recDedupeKey) :
    ∀ k, k ∈ (stepRow hh im ids i st row).ex ↔
      k ∈ (stepRow hh im ids i st row).lots.map recDedupeKey := by
  rcases stepRow_cases hh im ids i st row with ⟨_, hs⟩ | ⟨_, e, _, hs⟩ |
    ⟨_, f, _, _, hs⟩ | ⟨_, f, _, _, hs⟩ <;> rw [hs] <;> intro k
  · exact hinv k
  · exact hinv k
  · exact hinv k
  · simp only [List.mem_cons, List.map_append, List.map_cons, List.map_nil,
      List.mem_append, List.mem_singleton]
    rw [hinv k]
    tauto

lemma importLoop_exInv : ∀ (rows : List (List String)) (i : ℕ) (st : LoopSt),
    (∀ k, k ∈ st.ex ↔ k ∈ st.lots.map recDedupeKey) →
    ∀ k, k ∈ (importLoop hh im ids i st rows).ex ↔
      k ∈ (importLoop hh im ids i st rows).lots.map recDedupeKey
  | [], _, _, hinv => hinv
  | row :: rest, i, st, hinv =>
    importLoop_exInv rest (i + 1) _ (stepRow_exInv hh im ids i st row hinv)

/-- Keys only accumulate as the loop runs. -/
lemma stepRow_ex_mono (i : ℕ) (st : LoopSt) (row : List String) {k : String}
    (hk : k ∈ st.ex) : k ∈ (stepRow hh im ids i st row).ex := by
  rcases stepRow_cases hh im ids i st row with ⟨_, hs⟩ | ⟨_, e, _, hs⟩ |
    ⟨_, f, _, _, hs⟩ | ⟨_, f, _, _, hs⟩ <;> rw [hs]
  · exact hk
  · exact hk
  · exact hk
  · exact List.mem_cons_of_mem _ hk

lemma importLoop_ex_mono : ∀ (rows : List (List String)) (i : ℕ) (st : LoopSt) {k : String},
    k ∈ st.ex → k ∈ (importLoop hh im ids i st rows).ex
  | [], _, _, _, hk => hk
  | row :: rest, i, st, k, hk =>
    importLoop_ex_mono rest (i + 1) _ (stepRow_ex_mono hh im ids i st row hk)

/-- A blank row never normalizes: its symbol cell trims to empty. -/
lemma rowBlank_rowCheck (row : List String) (hb : rowBlank row = true) :
    rowCheck hh im row = .error .missingSymbol := by
  have hcell : ∀ i : ℕ, jsTrim (row[i]?.getD "") = "" := by
    intro i
    rcases h : row[i]? with _ | v
    · rfl
    · have hv : v ∈ row := List.getElem?_mem h
      have := (List.all_eq_true.mp hb) v hv
      exact of_decide_eq_true this
  have hsym : jsTrim (colAt hh row im.symbol 1) = "" := by
    rcases hsy : im.symbol with _ | j
    · cases hh <;> simp [colAt, List.getD, hcell] <;> rfl
    · simp [colAt, List.getD, hcell]
  simp [rowCheck, hsym]

/-- Every valid row's dedupe key ends up in the loop's `existing` set. -/
lemma importLoop_key_mem : ∀ (rows : List (List String)) (i : ℕ) (st : LoopSt)
    (row : List String) (f : RecFields), row ∈ rows → rowCheck hh im row = .ok f →
    recDedupeKey (mkRec "x" f) ∈ (importLoop hh im ids i st rows).ex
  | [], _, _, _, _, hmem, _ => absurd hmem (List.not_mem_nil _)
  | row0 :: rest, i, st, row, f, hmem, hok => by
    rcases List.mem_cons.mp hmem with rfl | hmem
    · rcases stepRow_cases hh im ids i st row with ⟨hb, _⟩ | ⟨_, e, he, _⟩ |
        ⟨_, f', hok', hk, hs⟩ | ⟨_, f', hok', _, hs⟩
      · rw [rowBlank_rowCheck hh im row hb] at hok
        cases hok
      · rw [he] at hok
        cases hok
      · have hf : f' = f := by
          rw [hok] at hok'
          cases hok'
          rfl
        subst hf
        refine importLoop_ex_mono hh im ids rest (i + 1) _ ?_
        rw [hs]
        exact hk
      · have hf : f' = f := by
          rw [hok] at hok'
          cases hok'
          rfl
        subst hf
        refine importLoop_ex_mono hh im ids rest (i + 1) _ ?_
        rw [hs]
        exact List.mem_cons_self _ _
    · exact importLoop_key_mem rest (i + 1) _ row f hmem hok

/-- When every non-blank row is valid and already keyed in `existing`, the
loop only counts skips: the lots, key set, import count and error list are
untouched. -/
lemma importLoop_all_skip : ∀ (rows : List (List String)) (i : ℕ) (st : LoopSt),
    (∀ row ∈ rows, rowBlank row = false →
      ∃ f, rowCheck hh im row = .ok f ∧ recDedupeKey (mkRec "x" f) ∈ st.ex) →
    importLoop hh im ids i st rows =
      { st with skipped := st.skipped + (rows.filter (fun row => !rowBlank row)).length,
                nextId := st.nextId + (rows.filter (fun row => !rowBlank row)).length }
  | [], _, st, _ => by
    simp only [importLoop, List.filter_nil, List.length_nil, Nat.add_zero]
  | row :: rest, i, st, hall => by
    have htail : ∀ r ∈ rest, rowBlank r = false →
        ∃ f, rowCheck hh im r = .ok f ∧ recDedupeKey (mkRec "x" f) ∈ st.ex :=
      fun r hr => hall r (List.mem_cons_of_mem _ hr)
    cases hb : rowBlank row
    · rcases hall row (List.mem_cons_self _ _) hb with ⟨f, hok, hkey⟩
      have hstep : stepRow hh im ids i st row =
          { st with skipped := st.skipped + 1, nextId := st.nextId + 1 } := by
        have hkey' : recDedupeKey (mkRec (ids st.nextId) f) ∈ st.ex := hkey
        simp [stepRow, hb, hok, hkey']
      simp only [importLoop, hstep]
      rw [importLoop_all_skip rest (i + 1) _ (by simpa using htail)]
      have hlen : ((row :: rest).filter (fun r => !rowBlank r)).length
          = (rest.filter (fun r => !rowBlank r)).length + 1 := by
        simp [List.filter_cons, hb]
      rw [hlen]
      have hsh : ∀ a n : ℕ, a + 1 + n = a + (n + 1) := fun a n => by omega
      rw [hsh st.skipped, hsh st.nextId]
    · have hstep : stepRow hh im ids i st row = st := by simp [stepRow, hb]
      simp only [importLoop, hstep]
      rw [importLoop_all_skip rest (i + 1) st htail]
      have hlen : ((row :: rest).filter (fun r => !rowBlank r)).length
          = (rest.filter (fun r => !rowBlank r)).length := by
        simp [List.filter_cons, hb]
      rw [hlen]

/-- If the loop ends with no errors, every non-blank row validated. -/
lemma importLoop_errors_nil : ∀ (rows : List (List String)) (i : ℕ) (st : LoopSt),
    (importLoop hh im ids i st rows).errors = [] →
    st.errors = [] ∧ ∀ row ∈ rows, rowBlank row = false → (rowCheck hh im row).isOk = true
  | [], _, _, hnil => ⟨hnil, by simp⟩
  | row :: rest, i, st, hnil => by
    have h1 := importLoop_errors_nil rest (i + 1) (stepRow hh im ids i st row) hnil
    rcases stepRow_cases hh im ids i st row with ⟨hb, hs⟩ | ⟨hb, e, he, hs⟩ |
      ⟨hb, f, hok, _, hs⟩ | ⟨hb, f, hok, _, hs⟩
    · refine ⟨by rw [hs] at h1; exact h1.1, ?_⟩
      intro r hr hrb
      rcases List.mem_cons.mp hr with rfl | hr
      · rw [hb] at hrb
        cases hrb
      · exact h1.2 r hr hrb
    · rw [hs] at h1
      have := h1.1
      simp at this
    · refine ⟨by rw [hs] at h1; exact h1.1, ?_⟩
      intro r hr hrb
      rcases List.mem_cons.mp hr with rfl | hr
      · rw [hok]
        rfl
      · exact h1.2 r hr hrb
    · refine ⟨by rw [hs] at h1; exact h1.1, ?_⟩
      intro r hr hrb
      rcases List.mem_cons.mp hr with rfl | hr
      · rw [hok]
        rfl
      · exact h1.2 r hr hrb

end ImportLoopLemmas

/-- Successful-import inversion: the batch had rows, the staged merge passed
the negative-holdings scan, the result is the saved merge, and the counts
are the loop's counts. -/
lemma importCsv_ok_inv (text : String) (led : Ledger) (now : String) (ids : ℕ → String)
    (L1 : Ledger) (st1 : ImportRes)
    (h : importCsvIntoLedger text led now ids = (L1, .ok st1)) :
    (parseCsv text).rows.isEmpty = false
    ∧ findNegativeHoldings (importMerged text led ids) = none
    ∧ L1 = saveLedger (importMerged text led ids) now
    ∧ st1 = ⟨(importRun text led ids).imported, (importRun text led ids).skipped,
        (importRun text led ids).errors⟩ := by
  by_cases hr : (parseCsv text).rows.isEmpty = true
  · simp [importCsvIntoLedger, hr] at h
  · rcases hf : findNegativeHoldings (importMerged text led ids) with _ | msg
    · refine ⟨by simpa using hr, rfl, ?_, ?_⟩ <;>
      · simp only [importCsvIntoLedger, hr, if_false, hf] at h
        rcases Prod.mk.injEq .. ▸ h with ⟨h1, h2⟩
        first
          | exact h1.symm
          | exact (Except.ok.inj h2).symm
    · simp only [importCsvIntoLedger, hr, if_false, hf] at h
      rcases Prod.mk.injEq .. ▸ h with ⟨_, h2⟩
      cases h2

/-- C6: re-importing a batch whose first import succeeded with no per-row
errors accepts zero new rows: every row's dedupe key (computed from all
fields but the id) is already present, so the second import reports all
non-blank rows as skipped, none imported, no errors, and leaves the lots
unchanged (only `lastSaved` is re-stamped by the save). -/
theorem C6_dedup_idempotent (text : String) (led L1 : Ledger) (now now2 : String)
    (ids ids2 : ℕ → String) (st1 : ImportRes)
    (h1 : importCsvIntoLedger text led now ids = (L1, .ok st1))
    (herr : st1.errors = []) :
    importCsvIntoLedger text L1 now2 ids2 =
      ({ L1 with lastSaved := some now2 },
       .ok ⟨0, ((parseCsv text).rows.filter (fun row => !rowBlank row)).length, []⟩) := by
  obtain ⟨hrows, hneg, hL1, hst1⟩ := importCsv_ok_inv text led now ids L1 st1 h1
  have hL1lots : L1.lots = sortByTs (importRun text led ids).lots := by
    rw [hL1]
    rfl
  have hfinerr : (importLoop (parseCsv text).header.isSome
      (csvHeaderIndexMap (parseCsv text).header) ids 0
      ⟨led.lots, led.lots.map recDedupeKey, 0, 0, [], 0⟩ (parseCsv text).rows).errors = [] := by
    rw [hst1] at herr
    exact herr
  have hvalid := (importLoop_errors_nil (parseCsv text).header.isSome
    (csvHeaderIndexMap (parseCsv text).header) ids (parseCsv text).rows 0
    ⟨led.lots, led.lots.map recDedupeKey, 0, 0, [], 0⟩ hfinerr).2
  have hkeys : ∀ row ∈ (parseCsv text).rows, rowBlank row = false →
      ∃ f, rowCheck (parseCsv text).header.isSome (csvHeaderIndexMap (parseCsv text).header) row
            = .ok f
        ∧ recDedupeKey (mkRec "x" f)
            ∈ (⟨L1.lots, L1.lots.map recDedupeKey, 0, 0, [], 0⟩ : LoopSt).ex := by
    intro row hrow hrb
    have hok := hvalid row hrow hrb
    rcases hco : rowCheck (parseCsv text).header.isSome
        (csvHeaderIndexMap (parseCsv text).header) row with e | f
    · rw [hco] at hok
      cases hok
    · refine ⟨f, rfl, ?_⟩
      have hmem := importLoop_key_mem (parseCsv text).header.isSome
        (csvHeaderIndexMap (parseCsv text).header) ids (parseCsv text).rows 0
        ⟨led.lots, led.lots.map recDedupeKey, 0, 0, [], 0⟩ row f hrow hco
      have hinv := importLoop_exInv (parseCsv text).header.isSome
        (csvHeaderIndexMap (parseCsv text).header) ids (parseCsv text).rows 0
        ⟨led.lots, led.lots.map recDedupeKey, 0, 0, [], 0⟩ (fun k => Iff.rfl)
        (recDedupeKey (mkRec "x" f))
      have hmem2 := hinv.mp hmem
      show recDedupeKey (mkRec "x" f) ∈ L1.lots.map recDedupeKey
      rw [hL1lots]
      exact (((sortByTs_perm _).map recDedupeKey).mem_iff).mpr hmem2
  have hloop2 := importLoop_all_skip (parseCsv text).header.isSome
    (csvHeaderIndexMap (parseCsv text).header) ids2 (parseCsv text).rows 0
    ⟨L1.lots, L1.lots.map recDedupeKey, 0, 0, [], 0⟩ hkeys
  simp only [Nat.zero_add] at hloop2
  have hrun2 : importRun text L1 ids2 =
      ⟨L1.lots, L1.lots.map recDedupeKey, 0,
        ((parseCsv text).rows.filter (fun row => !rowBlank row)).length, [],
        ((parseCsv text).rows.filter (fun row => !rowBlank row)).length⟩ := by
    exact hloop2
  have hsorted : sortByTs L1.lots = L1.lots := by
    rw [hL1lots]
    exact sortByTs_idem _
  have hmerged2 : importMerged text L1 ids2 = L1 := by
    simp only [importMerged, hrun2]
    rw [hsorted]
  have hfnh2 : findNegativeHoldings (importMerged text L1 ids2) = none := by
    rw [hmerged2]
    have heq : findNegativeHoldings L1 = findNegativeHoldings (importMerged text led ids) := by
      simp only [findNegativeHoldings, importMerged]
      rw [hL1lots, sortByTs_idem]
    rw [heq, hneg]
  have hfnhL1 : findNegativeHoldings L1 = none := by
    rw [← hmerged2]
    exact hfnh2
  simp only [importCsvIntoLedger, hrows, Bool.false_eq_true, if_false, hmerged2, hrun2, hfnhL1]
  rfl

/-! ## Claim C8: holdings-map characterization -/

lemma assocFind_hStep (acc : List (String × HEnt)) (r : Rec) (k : String) :
    assocFind (hStep acc r) k =
      if recKey r = k then
        some (match assocFind acc k with
              | some v => { v with pos := applyRec v.pos r }
              | none => { freshEnt r with pos := applyRec Pos.init r })
      else assocFind acc k := by
  induction acc with
  | nil =>
    by_cases h : recKey r = k
    · simp [hStep, assocFind, h]
    · simp [hStep, assocFind, h]
  | cons kv t ih =>
    rcases kv with ⟨k1, v⟩
    simp only [hStep]
    by_cases hk : k1 = recKey r
    · rw [if_pos hk]
      by_cases hkk : k1 = k
      · have h1 : recKey r = k := by rw [← hk, hkk]
        simp [assocFind, hkk, h1]
      · have h1 : ¬ recKey r = k := by rw [← hk]; exact hkk
        simp [assocFind, hkk, h1]
    · rw [if_neg hk]
      by_cases hkk : k1 = k
      · have h1 : ¬ recKey r = k := by
          intro h
          exact hk (by rw [hkk, ← h])
        simp [assocFind, hkk, h1]
      · simp only [assocFind, if_neg hkk]
        exact ih

lemma assocFind_hFold_some : ∀ (l : List Rec) (acc : List (String × HEnt)) (k : String)
    (v : HEnt), assocFind acc k = some v →
    assocFind (hFold acc l) k
      = some { v with pos := (l.filter (fun r => decide (recKey r = k))).foldl applyRec v.pos }
  | [], acc, k, v, hfind => by
    simp only [hFold, List.filter_nil, List.foldl_nil]
    rw [hfind]
  | r :: rest, acc, k, v, hfind => by
    simp only [hFold]
    by_cases hk : recKey r = k
    · have h2 : assocFind (hStep acc r) k = some { v with pos := applyRec v.pos r } := by
        rw [assocFind_hStep, if_pos hk, hfind]
      rw [assocFind_hFold_some rest _ k _ h2]
      simp [List.filter_cons, hk]
    · have h2 : assocFind (hStep acc r) k = some v := by
        rw [assocFind_hStep, if_neg hk]
        exact hfind
      rw [assocFind_hFold_some rest _ k _ h2]
      simp [List.filter_cons, hk]

lemma assocFind_hFold_none : ∀ (l : List Rec) (acc : List (String × HEnt)) (k : String),
    assocFind acc k = none →
    assocFind (hFold acc l) k
      = (l.filter (fun r => decide (recKey r = k))).head?.map
          (fun r0 => { freshEnt r0 with
            pos := (l.filter (fun r => decide (recKey r = k))).foldl applyRec Pos.init })
  | [], acc, k, hfind => by
    simp only [hFold, List.filter_nil]
    rw [hfind]
    rfl
  | r :: rest, acc, k, hfind => by
    simp only [hFold]
    by_cases hk : recKey r = k
    · have h2 : assocFind (hStep acc r) k
          = some { freshEnt r with pos := applyRec Pos.init r } := by
        rw [assocFind_hStep, if_pos hk, hfind]
      rw [assocFind_hFold_some rest _ k _ h2]
      simp [List.filter_cons, hk]
    · have h2 : assocFind (hStep acc r) k = none := by
        rw [assocFind_hStep, if_neg hk]
        exact hfind
      rw [assocFind_hFold_none rest _ k h2]
      simp [List.filter_cons, hk]

lemma hStep_keys_mem (acc : List (String × HEnt)) (r : Rec) (k : String) :
    k ∈ (hStep acc r).map Prod.fst ↔ k ∈ acc.map Prod.fst ∨ k = recKey r := by
  induction acc with
  | nil => simp [hStep]
  | cons kv t ih =>
    rcases kv with ⟨k1, v⟩
    simp only [hStep]
    by_cases hk : k1 = recKey r
    · rw [if_pos hk, hk]
      simp only [List.map_cons, List.mem_cons]
      tauto
    · rw [if_neg hk]
      simp only [List.map_cons, List.mem_cons, ih]
      tauto

lemma hStep_keys_nodup (acc : List (String × HEnt)) (r : Rec)
    (hnd : (acc.map Prod.fst).Nodup) : ((hStep acc r).map Prod.fst).Nodup := by
  induction acc with
  | nil => simp [hStep]
  | cons kv t ih =>
    rcases kv with ⟨k1, v⟩
    rcases List.nodup_cons.mp hnd with ⟨hk1, hnd'⟩
    simp only [hStep]
    by_cases hk : k1 = recKey r
    · rw [if_pos hk]
      simp only [List.map_cons]
      exact List.nodup_cons.mpr ⟨by simpa using hk1, hnd'⟩
    · rw [if_neg hk]
      simp only [List.map_cons]
      refine List.nodup_cons.mpr ⟨?_, ih hnd'⟩
      rw [hStep_keys_mem]
      rintro (h | h)
      · exact hk1 h
      · exact hk h

lemma hFold_keys_nodup : ∀ (l : List Rec) (acc : List (String × HEnt)),
    (acc.map Prod.fst).Nodup → ((hFold acc l).map Prod.fst).Nodup
  | [], _, hnd => hnd
  | r :: rest, acc, hnd => hFold_keys_nodup rest (hStep acc r) (hStep_keys_nodup acc r hnd)

lemma assocFind_mem_keys : ∀ (al : List (String × HEnt)) (k : String) (e : HEnt),
    assocFind al k = some e → k ∈ al.map Prod.fst ∧ (k, e) ∈ al
  | [], _, _, h => by cases h
  | (k', v) :: t, k, e, h => by
    by_cases hk : k' = k
    · subst hk
      rw [assocFind, if_pos rfl] at h
      injection h with h
      subst h
      exact ⟨List.mem_cons_self _ _, List.mem_cons_self _ _⟩
    · rw [assocFind, if_neg hk] at h
      rcases assocFind_mem_keys t k e h with ⟨h1, h2⟩
      exact ⟨List.mem_cons_of_mem _ h1, List.mem_cons_of_mem _ h2⟩

lemma mem_snd_iff_assocFind : ∀ (al : List (String × HEnt)),
    ((al.map Prod.fst).Nodup) → ∀ e : HEnt,
    (e ∈ al.map Prod.snd ↔ ∃ k, assocFind al k = some e)
  | [], _, e => by simp [assocFind]
  | (k', v) :: t, hnd, e => by
    rcases List.nodup_cons.mp hnd with ⟨hk', hnd'⟩
    simp only [List.map_cons, List.mem_cons]
    constructor
    · rintro (rfl | he)
      · exact ⟨k', by rw [assocFind, if_pos rfl]⟩
      · rcases (mem_snd_iff_assocFind t hnd' e).mp he with ⟨k, hk⟩
        refine ⟨k, ?_⟩
        have hkt : k ∈ t.map Prod.fst := (assocFind_mem_keys t k e hk).1
        have hne : ¬ k' = k := fun h => hk' (h ▸ hkt)
        rw [assocFind, if_neg hne]
        exact hk
    · rintro ⟨k, hk⟩
      by_cases hke : k' = k
      · subst hke
        rw [assocFind, if_pos rfl] at hk
        injection hk with hk
        exact Or.inl hk.symm
      · rw [assocFind, if_neg hke] at hk
        exact Or.inr ((mem_snd_iff_assocFind t hnd' e).mpr ⟨k, hk⟩)

lemma keyOf_some_data (m s : String) : (keyOf (some m) s).data = m.data ++ '|' :: s.data := by
  show (m.data ++ ['|']) ++ s.data = m.data ++ '|' :: s.data
  simp

/-- On the app's market codes, `keyOf` is injective: `${market}|${symbol}`
collisions would need a market containing `|`. -/
lemma keyOf_inj_app {m1 m2 : Option String} (s1 s2 : String)
    (h1 : m1 = some "TW" ∨ m1 = some "US") (h2 : m2 = some "TW" ∨ m2 = some "US") :
    keyOf m1 s1 = keyOf m2 s2 ↔ (m1 = m2 ∧ s1 = s2) := by
  constructor
  · intro h
    have hd := congrArg String.data h
    rcases h1 with rfl | rfl <;> rcases h2 with rfl | rfl <;>
      rw [keyOf_some_data, keyOf_some_data] at hd
    · have := List.append_cancel_left hd
      injection this with _ hs
      exact ⟨rfl, String.ext hs⟩
    · have e1 : ("TW" : String).data = ['T', 'W'] := rfl
      have e2 : ("US" : String).data = ['U', 'S'] := rfl
      rw [e1, e2] at hd
      simp at hd
    · have e1 : ("TW" : String).data = ['T', 'W'] := rfl
      have e2 : ("US" : String).data = ['U', 'S'] := rfl
      rw [e1, e2] at hd
      simp at hd
    · have := List.append_cancel_left hd
      injection this with _ hs
      exact ⟨rfl, String.ext hs⟩
  · rintro ⟨rfl, rfl⟩
    rfl

lemma recKey_eq_iff (r : Rec) (m : Option String) (s : String)
    (hr : r.market = some "TW" ∨ r.market = some "US")
    (hm : m = some "TW" ∨ m = some "US") :
    recKey r = keyOf m s ↔ (r.market = m ∧ r.symbol = s) :=
  keyOf_inj_app _ _ hr hm

/-- Filtering by the map key equals filtering by the record fields, on
ledgers whose markets are the app's codes. -/
lemma filter_recKey_matches (lots : List Rec) (m : Option String) (s : String)
    (hml : ∀ r ∈ lots, r.market = some "TW" ∨ r.market = some "US")
    (hm : m = some "TW" ∨ m = some "US") :
    lots.filter (fun r => decide (recKey r = keyOf m s)) = lots.filter (matchesKey m s) := by
  apply List.filter_congr
  intro r hr
  simp only [matchesKey]
  exact decide_eq_decide.mpr (recKey_eq_iff r m s (hml r hr) hm)

lemma buildLogForOne_foldl (led : Ledger) (m : Option String) (s : String) :
    (sortByTs (led.lots.filter (matchesKey m s))).foldl applyRec Pos.init
      = ⟨(buildLogForOne led m s).holdingQty, (buildLogForOne led m s).avgCost,
         (buildLogForOne led m s).realizedPnl⟩ := by
  simp only [buildLogForOne]
  rw [← replayRows_fst (sortByTs (led.lots.filter (matchesKey m s))) Pos.init 1]

lemma holdLe_total (a b : HEnt) : holdLe a b = true ∨ holdLe b a = true := by
  by_cases h : tmplStr a.market = tmplStr b.market
  · rw [holdLe, if_pos h, holdLe, if_pos h.symm]
    exact strLe_total _ _
  · have h' : ¬ tmplStr b.market = tmplStr a.market := fun hh => h hh.symm
    rw [holdLe, if_neg h, holdLe, if_neg h']
    exact strLe_total _ _

lemma holdLe_trans (a b c : HEnt) (h1 : holdLe a b = true) (h2 : holdLe b c = true) :
    holdLe a c = true := by
  by_cases hab : tmplStr a.market = tmplStr b.market <;>
    by_cases hbc : tmplStr b.market = tmplStr c.market
  · rw [holdLe, if_pos hab] at h1
    rw [holdLe, if_pos hbc] at h2
    rw [holdLe, if_pos (hab.trans hbc)]
    exact strLe_trans h1 h2
  · rw [holdLe, if_neg hbc] at h2
    have hac : ¬ tmplStr a.market = tmplStr c.market := by
      rw [hab]
      exact hbc
    rw [holdLe, if_neg hac, hab]
    exact h2
  · rw [holdLe, if_neg hab] at h1
    have hac : ¬ tmplStr a.market = tmplStr c.market := by
      rw [← hbc]
      exact hab
    rw [holdLe, if_neg hac, ← hbc]
    exact h1
  · rw [holdLe, if_neg hab] at h1
    rw [holdLe, if_neg hbc] at h2
    have hac : ¬ tmplStr a.market = tmplStr c.market := by
      intro h
      exact hab (strLe_antisymm h1 (h ▸ h2))
    rw [holdLe, if_neg hac]
    exact strLe_trans h1 h2

lemma assocFind_of_mem : ∀ (al : List (String × HEnt)), (al.map Prod.fst).Nodup →
    ∀ (k : String) (e : HEnt), (k, e) ∈ al → assocFind al k = some e
  | [], _, _, _, h => absurd h (List.not_mem_nil _)
  | (k1, v) :: t, hnd, k, e, h => by
    rcases List.nodup_cons.mp hnd with ⟨hk1, hnd'⟩
    rcases List.mem_cons.mp h with h | h
    · rcases Prod.ext_iff.mp h with ⟨h1, h2⟩
      dsimp at h1 h2
      subst h1
      subst h2
      rw [assocFind, if_pos rfl]
    · have hkt : k ∈ t.map Prod.fst := List.mem_map.mpr ⟨(k, e), h, rfl⟩
      have hne : ¬ k1 = k := fun hh => hk1 (hh ▸ hkt)
      rw [assocFind, if_neg hne]
      exact assocFind_of_mem t hnd' k e h

/-- Full characterization of a `computeHoldings` entry, on ledgers whose
markets are the app's codes: one entry per instrument that passes the
keep-filter, carrying that instrument's replayed terminal position. -/
lemma computeHoldings_mem (led : Ledger)
    (hm : ∀ r ∈ led.lots, r.market = some "TW" ∨ r.market = some "US") (e : HEnt) :
    e ∈ computeHoldings led ↔
      (holdKeep e = true
        ∧ (e.market = some "TW" ∨ e.market = some "US")
        ∧ (∃ r0 ∈ led.lots, r0.market = e.market ∧ r0.symbol = e.symbol)
        ∧ e.currency = marketToCurrency e.market
        ∧ e.pos = ⟨(buildLogForOne led e.market e.symbol).holdingQty,
                   (buildLogForOne led e.market e.symbol).avgCost,
                   (buildLogForOne led e.market e.symbol).realizedPnl⟩) := by
  have hms : ∀ r ∈ sortByTs led.lots, r.market = some "TW" ∨ r.market = some "US" :=
    fun r hr => hm r ((sortByTs_perm _).mem_iff.mp hr)
  have hnodup : ((hFold [] (sortByTs led.lots)).map Prod.fst).Nodup :=
    hFold_keys_nodup _ [] (by simp)
  have hfind : ∀ k, assocFind (hFold [] (sortByTs led.lots)) k
      = ((sortByTs led.lots).filter (fun r => decide (recKey r = k))).head?.map
          (fun r0 => { freshEnt r0 with
            pos := ((sortByTs led.lots).filter
              (fun r => decide (recKey r = k))).foldl applyRec Pos.init }) :=
    fun k => assocFind_hFold_none _ [] k rfl
  constructor
  · intro he
    rcases List.mem_filter.mp he with ⟨he1, he2⟩
    rcases (mem_snd_iff_assocFind _ hnodup e).mp he1 with ⟨k, hk⟩
    rw [hfind k] at hk
    rcases hF : ((sortByTs led.lots).filter (fun r => decide (recKey r = k))).head?
      with _ | r0
    · rw [hF] at hk
      cases hk
    · rw [hF] at hk
      injection hk with hk
      have hr0F : r0 ∈ (sortByTs led.lots).filter (fun r => decide (recKey r = k)) :=
        List.mem_of_mem_head? hF
      rcases List.mem_filter.mp hr0F with ⟨hr0s, hr0k⟩
      have hr0lots : r0 ∈ led.lots := (sortByTs_perm _).mem_iff.mp hr0s
      have hr0key : recKey r0 = k := of_decide_eq_true hr0k
      have hmar : e.market = r0.market := by
        rw [← hk]
        rfl
      have hsym : e.symbol = r0.symbol := by
        rw [← hk]
        rfl
      have hmk : e.market = some "TW" ∨ e.market = some "US" := hmar ▸ hm r0 hr0lots
      have hkeq : k = keyOf e.market e.symbol := by
        rw [← hr0key, hmar, hsym]
        rfl
      have hFeq : (sortByTs led.lots).filter (fun r => decide (recKey r = k))
          = sortByTs (led.lots.filter (matchesKey e.market e.symbol)) := by
        rw [hkeq, filter_recKey_matches _ _ _ hms hmk, sortByTs_filter]
      refine ⟨he2, hmk, ⟨r0, hr0lots, hmar.symm, hsym.symm⟩, ?_, ?_⟩
      · rw [← hk]
        rfl
      · rw [← buildLogForOne_foldl, ← hFeq, ← hk]
  · rintro ⟨hkeep, hmk, ⟨r0, hr0, hr0m, hr0s⟩, hcur, hpos⟩
    have hFeq : (sortByTs led.lots).filter
          (fun r => decide (recKey r = keyOf e.market e.symbol))
        = sortByTs (led.lots.filter (matchesKey e.market e.symbol)) := by
      rw [filter_recKey_matches _ _ _ hms hmk, sortByTs_filter]
    have hr0f : r0 ∈ sortByTs (led.lots.filter (matchesKey e.market e.symbol)) := by
      refine (sortByTs_perm _).mem_iff.mpr ?_
      refine List.mem_filter.mpr ⟨hr0, ?_⟩
      simp [matchesKey, hr0m, hr0s]
    rcases hF : ((sortByTs led.lots).filter
        (fun r => decide (recKey r = keyOf e.market e.symbol))).head? with _ | r1
    · rw [hFeq] at hF
      rw [List.head?_eq_none_iff] at hF
      rw [hF] at hr0f
      cases hr0f
    · have hr1F : r1 ∈ (sortByTs led.lots).filter
          (fun r => decide (recKey r = keyOf e.market e.symbol)) :=
        List.mem_of_mem_head? hF
      rcases List.mem_filter.mp hr1F with ⟨hr1s, hr1k⟩
      have hr1lots : r1 ∈ led.lots := (sortByTs_perm _).mem_iff.mp hr1s
      have hr1key : recKey r1 = keyOf e.market e.symbol := of_decide_eq_true hr1k
      rcases (recKey_eq_iff r1 e.market e.symbol (hm r1 hr1lots) hmk).mp hr1key
        with ⟨hr1m, hr1sy⟩
      have heq : assocFind (hFold [] (sortByTs led.lots)) (keyOf e.market e.symbol)
          = some e := by
        rw [hfind, hF]
        have hent : (⟨r1.market, r1.symbol, marketToCurrency r1.market,
            ((sortByTs led.lots).filter
              (fun r => decide (recKey r = keyOf e.market e.symbol))).foldl
                applyRec Pos.init⟩ : HEnt) = e := by
          rw [hr1m, hr1sy, hFeq, buildLogForOne_foldl, ← hcur, ← hpos]
        exact congrArg some hent
      exact List.mem_filter.mpr
        ⟨(mem_snd_iff_assocFind _ hnodup e).mpr ⟨_, heq⟩, hkeep⟩

/-- Every entry of the aggregation map sits under the key of its own
instrument: `hStep` only ever creates `(recKey r, freshEnt r ...)` pairs and
later updates touch the position alone. -/
lemma hStep_key_inv : ∀ (acc : List (String × HEnt)) (r : Rec),
    (∀ p ∈ acc, keyOf p.2.market p.2.symbol = p.1) →
    ∀ p ∈ hStep acc r, keyOf p.2.market p.2.symbol = p.1
  | [], r, _, p, hp => by
    simp only [hStep, List.mem_singleton] at hp
    subst hp
    rfl
  | (k1, v) :: t, r, hacc, p, hp => by
    simp only [hStep] at hp
    by_cases hk : k1 = recKey r
    · rw [if_pos hk] at hp
      rcases List.mem_cons.mp hp with hp | hp
      · subst hp
        exact hacc (k1, v) (List.mem_cons_self _ _)
      · exact hacc p (List.mem_cons_of_mem _ hp)
    · rw [if_neg hk] at hp
      rcases List.mem_cons.mp hp with hp | hp
      · subst hp
        exact hacc (k1, v) (List.mem_cons_self _ _)
      · exact hStep_key_inv t r (fun q hq => hacc q (List.mem_cons_of_mem _ hq)) p hp

lemma hFold_key_inv : ∀ (l : List Rec) (acc : List (String × HEnt)),
    (∀ p ∈ acc, keyOf p.2.market p.2.symbol = p.1) →
    ∀ p ∈ hFold acc l, keyOf p.2.market p.2.symbol = p.1
  | [], _, hacc => hacc
  | r :: rest, acc, hacc => hFold_key_inv rest (hStep acc r) (hStep_key_inv acc r hacc)

/-- On records with nonnegative quantities the replayed terminal holding is
nonnegative (BUY adds, SELL subtracts but clamps at zero). -/
lemma buildLogForOne_qty_nonneg (led : Ledger) (m : Option String) (s : String)
    (hq : ∀ r ∈ led.lots, 0 ≤ r.qty) : 0 ≤ (buildLogForOne led m s).holdingQty := by
  have hq' : ∀ r ∈ sortByTs (led.lots.filter (matchesKey m s)), 0 ≤ r.qty := by
    intro r hr
    exact hq r (List.mem_of_mem_filter ((sortByTs_perm _).mem_iff.mp hr))
  have h := foldl_applyRec_qty_nonneg (sortByTs (led.lots.filter (matchesKey m s)))
    Pos.init (le_refl 0) hq'
  rw [buildLogForOne_foldl] at h
  exact h

/-- Witness for C6: a two-row batch (with an in-batch duplicate) imports
once onto an empty ledger as one insert and one skip with no errors, and a
second import of the same text accepts nothing - both rows skipped. -/
theorem C6_dedup_idempotent_witness :
    importCsvIntoLedger "US,AAPL,BUY,2024-01-02,,5,10,\nUS,AAPL,BUY,2024-01-02,,5,10,"
      (⟨1, [⟨some "id0", "2024-01-02 09:00:00", some "US", "AAPL", "BUY", 5, 10, 0⟩], some "t1"⟩)
      "t2" (fun n => "jd" ++ toString n)
    = (⟨1, [⟨some "id0", "2024-01-02 09:00:00", some "US", "AAPL", "BUY", 5, 10, 0⟩], some "t2"⟩,
       .ok ⟨0, 2, []⟩) := by
  have h := C6_dedup_idempotent "US,AAPL,BUY,2024-01-02,,5,10,\nUS,AAPL,BUY,2024-01-02,,5,10,"
    ⟨1, [], none⟩
    ⟨1, [⟨some "id0", "2024-01-02 09:00:00", some "US", "AAPL", "BUY", 5, 10, 0⟩], some "t1"⟩
    "t1" "t2" (fun n => "id" ++ toString n) (fun n => "jd" ++ toString n)
    ⟨1, 1, []⟩ (by decide) rfl
  rw [h]
  decide

/-- **C8.** On every ledger whose records carry one of the app's market codes
("TW"/"US") and nonnegative quantities, the holdings aggregation shown by
`renderHoldings` is sorted by market then symbol, lists each (market, symbol)
instrument at most once, and contains an entry for an instrument - carrying
that instrument's replayed currency and terminal position - exactly when some
record of the instrument exists and its terminal holding is non-zero or its
cumulative realized P&L exceeds 1e-6 in absolute value. -/
theorem C8_holdings_aggregation (led : Ledger)
    (hm : ∀ r ∈ led.lots, r.market = some "TW" ∨ r.market = some "US")
    (hq : ∀ r ∈ led.lots, 0 ≤ r.qty) :
    (holdingsRows led).Pairwise (fun a b => holdLe a b = true)
    ∧ ((holdingsRows led).map (fun e => (e.market, e.symbol))).Nodup
    ∧ ∀ (m : Option String) (s : String), (m = some "TW" ∨ m = some "US") →
      ((∃ e ∈ holdingsRows led, e.market = m ∧ e.symbol = s
          ∧ e.currency = marketToCurrency m
          ∧ e.pos = ⟨(buildLogForOne led m s).holdingQty,
                     (buildLogForOne led m s).avgCost,
                     (buildLogForOne led m s).realizedPnl⟩)
        ↔ ((∃ r ∈ led.lots, r.market = m ∧ r.symbol = s)
           ∧ ((buildLogForOne led m s).holdingQty ≠ 0
              ∨ (1 : ℚ) / 1000000 < |(buildLogForOne led m s).realizedPnl|))) := by
  have hperm : (holdingsRows led).Perm (computeHoldings led) :=
    stableSortBy_perm holdLe (computeHoldings led)
  refine ⟨stableSortBy_sorted holdLe holdLe_total holdLe_trans (computeHoldings led),
    ?_, ?_⟩
  · have hkeys : ((hFold [] (sortByTs led.lots)).map Prod.fst).Nodup :=
      hFold_keys_nodup _ [] (by simp)
    have hinv : ∀ p ∈ hFold [] (sortByTs led.lots),
        keyOf p.2.market p.2.symbol = p.1 :=
      hFold_key_inv _ [] (fun p hp => absurd hp (List.not_mem_nil p))
    have hmapeq : ((hFold [] (sortByTs led.lots)).map
          (fun p => (p.2.market, p.2.symbol))).map (fun q => keyOf q.1 q.2)
        = (hFold [] (sortByTs led.lots)).map Prod.fst := by
      rw [List.map_map]
      exact List.map_congr_left (fun p hp => hinv p hp)
    have hpairsFull : ((hFold [] (sortByTs led.lots)).map
        (fun p => (p.2.market, p.2.symbol))).Nodup :=
      List.Nodup.of_map _ (hmapeq ▸ hkeys)
    have hsub : List.Sublist ((computeHoldings led).map (fun e => (e.market, e.symbol)))
        (((hFold [] (sortByTs led.lots)).map Prod.snd).map
            (fun e => (e.market, e.symbol))) :=
      List.Sublist.map _ (List.filter_sublist _)
    rw [List.map_map] at hsub
    have hpairsCH : ((computeHoldings led).map (fun e => (e.market, e.symbol))).Nodup :=
      List.Nodup.sublist hsub hpairsFull
    exact (List.Perm.nodup_iff (List.Perm.map _ hperm)).mpr hpairsCH
  · intro m s hmk
    constructor
    · rintro ⟨e, he, hem, hes, _, _⟩
      have he' : e ∈ computeHoldings led := hperm.mem_iff.mp he
      rcases (computeHoldings_mem led hm e).mp he'
        with ⟨hkeep, _, ⟨r0, hr0, hr0m, hr0s⟩, _, hpos⟩
      have hqe : e.pos.qty = (buildLogForOne led m s).holdingQty := by
        rw [← hem, ← hes]
        exact congrArg Pos.qty hpos
      have hre : e.pos.realized = (buildLogForOne led m s).realizedPnl := by
        rw [← hem, ← hes]
        exact congrArg Pos.realized hpos
      have hk2 : 0 < e.pos.qty ∨ (1 : ℚ) / 1000000 < |e.pos.realized| := by
        simpa only [holdKeep, Bool.or_eq_true, decide_eq_true_eq] using hkeep
      refine ⟨⟨r0, hr0, by rw [hr0m, hem], by rw [hr0s, hes]⟩, ?_⟩
      rcases hk2 with h | h
      · refine Or.inl ?_
        rw [← hqe]
        exact ne_of_gt h
      · refine Or.inr ?_
        rw [← hre]
        exact h
    · rintro ⟨⟨r0, hr0, hr0m, hr0s⟩, hcond⟩
      have hbq : 0 ≤ (buildLogForOne led m s).holdingQty :=
        buildLogForOne_qty_nonneg led m s hq
      have hkeep : holdKeep ⟨m, s, marketToCurrency m,
          ⟨(buildLogForOne led m s).holdingQty, (buildLogForOne led m s).avgCost,
           (buildLogForOne led m s).realizedPnl⟩⟩ = true := by
        simp only [holdKeep, Bool.or_eq_true, decide_eq_true_eq]
        rcases hcond with h | h
        · exact Or.inl (lt_of_le_of_ne hbq (Ne.symm h))
        · exact Or.inr h
      have hin : (⟨m, s, marketToCurrency m,
          ⟨(buildLogForOne led m s).holdingQty, (buildLogForOne led m s).avgCost,
           (buildLogForOne led m s).realizedPnl⟩⟩ : HEnt) ∈ computeHoldings led :=
        (computeHoldings_mem led hm _).mpr
          ⟨hkeep, hmk, ⟨r0, hr0, hr0m, hr0s⟩, rfl, rfl⟩
      exact ⟨_, hperm.mem_iff.mpr hin, rfl, rfl, rfl, rfl⟩

/-- Witness for C8 at a two-instrument ledger: one TW instrument still held,
one US instrument fully sold at a profit (kept through realized P&L). -/
theorem C8_holdings_aggregation_witness :
    (holdingsRows
        ⟨1, [⟨some "a", "2024-01-01 10:00:00", some "TW", "2330", "BUY", 100, 586, 20⟩,
             ⟨some "b", "2024-01-02 10:00:00", some "US", "AAPL", "BUY", 5, 10, 0⟩,
             ⟨some "c", "2024-01-03 10:00:00", some "US", "AAPL", "SELL", 5, 12, 0⟩],
         none⟩).Pairwise (fun a b => holdLe a b = true)
    ∧ ((holdingsRows
        ⟨1, [⟨some "a", "2024-01-01 10:00:00", some "TW", "2330", "BUY", 100, 586, 20⟩,
             ⟨some "b", "2024-01-02 10:00:00", some "US", "AAPL", "BUY", 5, 10, 0⟩,
             ⟨some "c", "2024-01-03 10:00:00", some "US", "AAPL", "SELL", 5, 12, 0⟩],
         none⟩).map (fun e => (e.market, e.symbol))).Nodup
    ∧ ∀ (m : Option String) (s : String), (m = some "TW" ∨ m = some "US") →
      ((∃ e ∈ holdingsRows
          ⟨1, [⟨some "a", "2024-01-01 10:00:00", some "TW", "2330", "BUY", 100, 586, 20⟩,
               ⟨some "b", "2024-01-02 10:00:00", some "US", "AAPL", "BUY", 5, 10, 0⟩,
               ⟨some "c", "2024-01-03 10:00:00", some "US", "AAPL", "SELL", 5, 12, 0⟩],
           none⟩, e.market = m ∧ e.symbol = s
          ∧ e.currency = marketToCurrency m
          ∧ e.pos = ⟨(buildLogForOne
              ⟨1, [⟨some "a", "2024-01-01 10:00:00", some "TW", "2330", "BUY", 100, 586, 20⟩,
                   ⟨some "b", "2024-01-02 10:00:00", some "US", "AAPL", "BUY", 5, 10, 0⟩,
                   ⟨some "c", "2024-01-03 10:00:00", some "US", "AAPL", "SELL", 5, 12, 0⟩],
               none⟩ m s).holdingQty,
             (buildLogForOne
              ⟨1, [⟨some "a", "2024-01-01 10:00:00", some "TW", "2330", "BUY", 100, 586, 20⟩,
                   ⟨some "b", "2024-01-02 10:00:00", some "US", "AAPL", "BUY", 5, 10, 0⟩,
                   ⟨some "c", "2024-01-03 10:00:00", some "US", "AAPL", "SELL", 5, 12, 0⟩],
               none⟩ m s).avgCost,
             (buildLogForOne
              ⟨1, [⟨some "a", "2024-01-01 10:00:00", some "TW", "2330", "BUY", 100, 586, 20⟩,
                   ⟨some "b", "2024-01-02 10:00:00", some "US", "AAPL", "BUY", 5, 10, 0⟩,
                   ⟨some "c", "2024-01-03 10:00:00", some "US", "AAPL", "SELL", 5, 12, 0⟩],
               none⟩ m s).realizedPnl⟩)
        ↔ ((∃ r ∈ ([⟨some "a", "2024-01-01 10:00:00", some "TW", "2330", "BUY", 100, 586, 20⟩,
                    ⟨some "b", "2024-01-02 10:00:00", some "US", "AAPL", "BUY", 5, 10, 0⟩,
                    ⟨some "c", "2024-01-03 10:00:00", some "US", "AAPL", "SELL", 5, 12, 0⟩] : List Rec),
              r.market = m ∧ r.symbol = s)
           ∧ ((buildLogForOne
              ⟨1, [⟨some "a", "2024-01-01 10:00:00", some "TW", "2330", "BUY", 100, 586, 20⟩,
                   ⟨some "b", "2024-01-02 10:00:00", some "US", "AAPL", "BUY", 5, 10, 0⟩,
                   ⟨some "c", "2024-01-03 10:00:00", some "US", "AAPL", "SELL", 5, 12, 0⟩],
               none⟩ m s).holdingQty ≠ 0
              ∨ (1 : ℚ) / 1000000 < |(buildLogForOne
              ⟨1, [⟨some "a", "2024-01-01 10:00:00", some "TW", "2330", "BUY", 100, 586, 20⟩,
                   ⟨some "b", "2024-01-02 10:00:00", some "US", "AAPL", "BUY", 5, 10, 0⟩,
                   ⟨some "c", "2024-01-03 10:00:00", some "US", "AAPL", "SELL", 5, 12, 0⟩],
               none⟩ m s).realizedPnl|))) :=
  C8_holdings_aggregation
    ⟨1, [⟨some "a", "2024-01-01 10:00:00", some "TW", "2330", "BUY", 100, 586, 20⟩,
         ⟨some "b", "2024-01-02 10:00:00", some "US", "AAPL", "BUY", 5, 10, 0⟩,
         ⟨some "c", "2024-01-03 10:00:00", some "US", "AAPL", "SELL", 5, 12, 0⟩],
     none⟩ (by decide) (by decide)

end StockLedger
